import Mathlib

/-!
Verification development for the PMDco documentation diagram generator
(`ttl_to_graphviz.py`): a shallow embedding of the RDF-to-diagram
conversion engine (graph collection, hierarchy expansion, identifier and
metadata assignment, label resolution, and the two renderers), together
with theorems settling the specification's claims about it.

Machine integers do not occur (all quantities are small non-negative
counts); Python strings are modelled by Lean `String` restricted to the
ASCII fragment actually used by the program's regular expressions.
-/

namespace TtlGv

/-! ### Character and string utilities (from the source's regex helpers) -/

/-- Python `\w` character class on the ASCII fragment: `[A-Za-z0-9_]`. -/
def isWordChar (c : Char) : Bool :=
  c.isAlphanum || c = '_'

/-- One character of the substitution replacing every character outside
`[A-Za-z0-9_]` by an underscore. -/
def mermaidChar (c : Char) : Char :=
  if c.isAlphanum || c = '_' then c else '_'

/-- Replace every maximal run of characters satisfying `p` by the single
replacement character (the run-collapsing regex substitution idiom). -/
def subRuns (p : Char → Bool) (r : Char) : List Char → List Char
  | [] => []
  | [c] => [if p c then r else c]
  | a :: b :: rest =>
      if p a && p b then subRuns p r (b :: rest)
      else (if p a then r else a) :: subRuns p r (b :: rest)

/-- Python `str.strip(chars)` for a single strip character. -/
def stripChar (c : Char) (l : List Char) : List Char :=
  ((l.dropWhile (· = c)).reverse.dropWhile (· = c)).reverse

/-- Python `str.strip()` (whitespace at both ends). -/
def stripWs (l : List Char) : List Char :=
  ((l.dropWhile Char.isWhitespace).reverse.dropWhile Char.isWhitespace).reverse

/-- Model of `safe_mermaid_id`: keep `[A-Za-z0-9_]`, squash `_` runs, strip `_`,
default `"n"`, and guard a leading digit with `"n_"`. -/
def safeMermaidId (raw : String) : String :=
  let s1 := raw.data.map mermaidChar
  let s2 := stripChar '_' (subRuns (· = '_') '_' s1)
  let s3 := if s2 = [] then ['n'] else s2
  let s4 := if (s3.headD 'n').isDigit then 'n' :: '_' :: s3 else s3
  String.mk s4

/-- Model of `RdfToDiagram._normalize_label`: strip, whitespace runs to `_`,
non-word runs to `_`, strip `_`, default `"node"`. -/
def normalizeLabel (lbl : String) : String :=
  let s1 := subRuns Char.isWhitespace '_' (stripWs lbl.data)
  let s2 := subRuns (fun c => !(isWordChar c || c = '-')) '_' s1
  let s3 := stripChar '_' s2
  if s3 = [] then "node" else String.mk s3

/-- The suffix of `l` after the last occurrence of `c` (all of `l` when `c`
does not occur): Python `rsplit(c, 1)[-1]`. -/
def afterLastChar (c : Char) (l : List Char) : List Char :=
  (l.reverse.takeWhile (· ≠ c)).reverse

/-- Model of `uri_local_name`: fragment after `#` if present, else last path
segment of the `/`-right-stripped URI. -/
def uriLocalName (uri : String) : String :=
  if uri.data.contains '#' then
    String.mk (afterLastChar '#' uri.data)
  else
    String.mk (afterLastChar '/' ((uri.data.reverse.dropWhile (· = '/')).reverse))

/-- Does `sub` occur as a contiguous sublist of `hay`? -/
def containsSub (sub : List Char) : List Char → Bool
  | [] => sub.isPrefixOf ([] : List Char)
  | c :: rest => sub.isPrefixOf (c :: rest) || containsSub sub rest

/-- Substring containment on strings (`Python: sub in hay`). -/
def strContains (hay sub : String) : Bool :=
  containsSub sub.data hay.data

/-- The remainder of `hay` after the first occurrence of `sub`
(Python `hay.split(sub, 1)[1]` when `sub` occurs). -/
def afterFirstSub (sub : List Char) : List Char → Option (List Char)
  | [] => if sub.isPrefixOf ([] : List Char) then some [] else none
  | c :: rest =>
      if sub.isPrefixOf (c :: rest) then some ((c :: rest).drop sub.length)
      else afterFirstSub sub rest

/-- Match `^([A-Za-z]+)_\d+$` and return the alphabetic group. -/
def matchAlphaUnderDigitsAll (l : List Char) : Option (List Char) :=
  let alpha := l.takeWhile Char.isAlpha
  let rest := l.dropWhile Char.isAlpha
  match rest with
  | '_' :: ds =>
      if alpha ≠ [] && ds ≠ [] && ds.all Char.isDigit then some alpha else none
  | _ => none

/-- Match `^([A-Za-z]+)_` and return the alphabetic group. -/
def matchAlphaUnder (l : List Char) : Option (List Char) :=
  let alpha := l.takeWhile Char.isAlpha
  let rest := l.dropWhile Char.isAlpha
  match rest with
  | '_' :: _ => if alpha ≠ [] then some alpha else none
  | _ => none

def lowerStr (l : List Char) : String :=
  String.mk (l.map Char.toLower)

/-- Model of `obo_prefix_for_iri`: detect the ontology source of an IRI and return
its lowercase styling/labeling token. -/
def oboPrefixForIri (iri : String) : Option String :=
  let d := iri.data
  let oboPart := if containsSub "purl.obolibrary.org/obo/".data d then
      afterFirstSub "/obo/".data d else none
  match oboPart with
  | some local_ =>
      match matchAlphaUnderDigitsAll local_ with
      | some a => some (lowerStr a)
      | none =>
          match matchAlphaUnder local_ with
          | some a => some (lowerStr a)
          | none => oboTail d
  | none => oboTail d
where
  /-- The non-OBO branches of `obo_prefix_for_iri`. -/
  oboTail (d : List Char) : Option String :=
    if containsSub "w3id.org/pmd/".data d then
      (if containsSub "/pmdco/".data d || containsSub "/pmdco#".data d then
        some "pmdco" else some "pmd")
    else if containsSub "qudt.org/".data d then some "qudt"
    else if containsSub "purl.org/dc/terms/".data d then some "dcterms"
    else if containsSub "purl.org/dc/elements/".data d then some "dc"
    else if containsSub "schema.org/".data d then some "schema"
    else if containsSub "xmlns.com/foaf/".data d then some "foaf"
    else if containsSub "w3.org/2004/02/skos/".data d then some "skos"
    else if containsSub "w3.org/ns/prov".data d then some "prov"
    else none

/-- Python `str.replace`, scanning left to right without overlap.  The
fuel is the string length, consumed one unit per scanned position, so it
is never exhausted; the empty pattern (which Python treats specially)
never occurs in the program. -/
def replaceFuel (pat rep : List Char) : Nat → List Char → List Char
  | _, [] => []
  | 0, l => l
  | fuel + 1, c :: rest =>
      if pat ≠ [] ∧ pat.isPrefixOf (c :: rest) then
        rep ++ replaceFuel pat rep fuel ((c :: rest).drop pat.length)
      else c :: replaceFuel pat rep fuel rest

/-- Python `s.replace(pat, rep)`. -/
def strReplace (s pat rep : String) : String :=
  String.mk (replaceFuel pat.data rep.data s.data.length s.data)

/-- Python `s.startswith(pre)`. -/
def strStartsWith (s pre : String) : Bool :=
  pre.data.isPrefixOf s.data

/-- Python `s.endswith(suf)`. -/
def strEndsWith (s suf : String) : Bool :=
  suf.data.reverse.isPrefixOf s.data.reverse

/-- Drop the first `n` characters. -/
def strDrop (s : String) (n : Nat) : String :=
  String.mk (s.data.drop n)

/-- Drop the last `n` characters (Python `s[:-n]`). -/
def strDropRight (s : String) (n : Nat) : String :=
  String.mk (s.data.take (s.data.length - n))

/-- Model of `escape_mermaid_label`. -/
def escapeMermaidLabel (label : String) : String :=
  strReplace (strReplace (strReplace (strReplace (strReplace label
    "&" "&amp;") "\"" "&quot;") "[" "&#91;") "]" "&#93;") "\n" "<br/>"

/-- Model of `escape_dot_label`. -/
def escapeDotLabel (label : String) : String :=
  strReplace (strReplace (strReplace (strReplace (strReplace label
    "\\" "\\\\") "\"" "\\\"") "\r\n" "\n") "\r" "\n") "\n" "\\n"

/-- Model of `chunked(items, n)`: split a list into chunks of size `n` (callers use
`n = 12`; the `n = 0` case never occurs in the program).  The fuel is the
list length and is never exhausted. -/
def chunkedFuel (n : Nat) : Nat → List α → List (List α)
  | _, [] => []
  | 0, l => [l]
  | fuel + 1, x :: xs => (x :: xs).take n :: chunkedFuel n fuel (xs.drop (n - 1))

def chunked (n : Nat) (l : List α) : List (List α) :=
  chunkedFuel n l.length l

/-! ### RDF data model

`Node = Union[URIRef, BNode, Literal]` from the source.  A literal carries
its lexical form, optional language tag and optional datatype IRI;
`str(node)` on a literal is its lexical form, on a `URIRef` its IRI and on
a `BNode` its internal identifier. -/

inductive RNode where
  | uri (iri : String)
  | bnode (id : String)
  | lit (lex : String) (lang : Option String) (dtype : Option String)
deriving DecidableEq, Repr

/-- Python `str(node)`. -/
def RNode.str : RNode → String
  | .uri i => i
  | .bnode b => b
  | .lit lex _ _ => lex

def RNode.isUri : RNode → Bool
  | .uri _ => true
  | _ => false

def RNode.isBNode : RNode → Bool
  | .bnode _ => true
  | _ => false

def RNode.isLit : RNode → Bool
  | .lit _ _ _ => true
  | _ => false

/-- An RDF triple `(subject, predicate, object)`; predicates are URIs and
are kept as plain IRI strings. -/
structure RTriple where
  s : RNode
  p : String
  o : RNode
deriving DecidableEq, Repr

/-- The parsed document: its triples in rdflib iteration order together
with the namespace-manager bindings `(prefix token, namespace IRI)`. -/
structure RGraph where
  triples : List RTriple
  nss : List (String × String)
deriving DecidableEq, Repr

/-! Well-known vocabulary IRIs used by the converter. -/

def rdfTypeIri : String := "http://www.w3.org/1999/02/22-rdf-syntax-ns#type"
def rdfFirstIri : String := "http://www.w3.org/1999/02/22-rdf-syntax-ns#first"
def rdfRestIri : String := "http://www.w3.org/1999/02/22-rdf-syntax-ns#rest"
def rdfNilIri : String := "http://www.w3.org/1999/02/22-rdf-syntax-ns#nil"
def rdfsLabelIri : String := "http://www.w3.org/2000/01/rdf-schema#label"
def rdfsSubClassOfIri : String := "http://www.w3.org/2000/01/rdf-schema#subClassOf"
def rdfsClassIri : String := "http://www.w3.org/2000/01/rdf-schema#Class"
def rdfsResourceIri : String := "http://www.w3.org/2000/01/rdf-schema#Resource"
def owlClassIri : String := "http://www.w3.org/2002/07/owl#Class"
def owlThingIri : String := "http://www.w3.org/2002/07/owl#Thing"
def owlOntologyIri : String := "http://www.w3.org/2002/07/owl#Ontology"
def shNodeShapeIri : String := "http://www.w3.org/ns/shacl#NodeShape"
def shPropertyShapeIri : String := "http://www.w3.org/ns/shacl#PropertyShape"
def shShapeIri : String := "http://www.w3.org/ns/shacl#Shape"
def shInIri : String := "http://www.w3.org/ns/shacl#in"
def shOrIri : String := "http://www.w3.org/ns/shacl#or"
def shAndIri : String := "http://www.w3.org/ns/shacl#and"
def shXoneIri : String := "http://www.w3.org/ns/shacl#xone"
def shNotIri : String := "http://www.w3.org/ns/shacl#not"
def bfoEntityIri : String := "http://purl.obolibrary.org/obo/BFO_0000001"

/-- Model of `_IMPLICIT_TOP_CLASSES` (`owl:Thing`, `rdfs:Resource`). -/
def implicitTopClasses : List String := [owlThingIri, rdfsResourceIri]

/-- Model of `SHACL_LIST_PREDICATES` (`sh:in`, `sh:or`, `sh:and`, `sh:xone`, `sh:not`). -/
def shaclListPredicates : List String := [shInIri, shOrIri, shAndIri, shXoneIri, shNotIri]

/-! ### Graph query primitives (rdflib collaborator surface) -/

/-- Model of `g.objects(subj, pred)` in graph iteration order. -/
def RGraph.objectsOf (g : RGraph) (subj : RNode) (pred : String) : List RNode :=
  (g.triples.filter (fun t => t.s = subj && t.p = pred)).map RTriple.o

/-- Model of `g.value(subj, pred)` with `any=True`: some object of a matching
triple, or `none` (modelled as the first in iteration order). -/
def RGraph.valueOf (g : RGraph) (subj : RNode) (pred : String) : Option RNode :=
  (g.objectsOf subj pred).head?

/-- Literal objects of `g.objects(node, RDFS.label)`, in graph order. -/
def RGraph.localLabelLits (g : RGraph) (node : RNode) : List RNode :=
  (g.objectsOf node rdfsLabelIri).filter RNode.isLit

/-! ### Stable sorting

Python's `sorted`/`list.sort` are stable ascending sorts by key;
`List.insertionSort` with a `≤`-style relation has exactly this behaviour. -/

/-- Sort key of `_assign_ids_and_metadata.node_sort_key` and of the
size-cap truncation: URIs first, then blank nodes, then literals,
lexicographic by `str` within a tier. -/
def nodeTier (n : RNode) : Nat :=
  match n with
  | .uri _ => 0
  | .bnode _ => 1
  | .lit _ _ _ => 2

/-- Characters with equal code points are equal. -/
theorem charToNat_inj {a b : Char} (h : a.toNat = b.toNat) : a = b :=
  Char.ext (UInt32.ext h)

/-- Lexicographic strict order on code-point sequences: Python's `<` on
strings.  (Written as an executable comparator so concrete runs of the
model reduce inside the kernel.) -/
def clLt : List Char → List Char → Bool
  | [], [] => false
  | [], _ :: _ => true
  | _ :: _, [] => false
  | a :: as, b :: bs => if a = b then clLt as bs else decide (a.toNat < b.toNat)

/-- Lexicographic `≤` on code-point sequences: Python's `<=` on strings. -/
def clLe : List Char → List Char → Bool
  | [], _ => true
  | _ :: _, [] => false
  | a :: as, b :: bs => if a = b then clLe as bs else decide (a.toNat < b.toNat)

theorem clLt_trichotomy (xs ys : List Char) :
    xs = ys ∨ clLt xs ys = true ∨ clLt ys xs = true := by
  induction xs generalizing ys with
  | nil =>
      cases ys with
      | nil => exact Or.inl rfl
      | cons b bs => exact Or.inr (Or.inl (by simp [clLt]))
  | cons a as ih =>
      cases ys with
      | nil => exact Or.inr (Or.inr (by simp [clLt]))
      | cons b bs =>
          by_cases hab : a = b
          · subst hab
            rcases ih bs with h | h | h
            · exact Or.inl (by rw [h])
            · exact Or.inr (Or.inl (by simp [clLt, h]))
            · exact Or.inr (Or.inr (by simp [clLt, h]))
          · rcases Nat.lt_trichotomy a.toNat b.toNat with h | h | h
            · exact Or.inr (Or.inl (by simp [clLt, hab, h]))
            · exact absurd (charToNat_inj h) hab
            · exact Or.inr (Or.inr (by simp [clLt, Ne.symm hab, h]))

theorem clLt_trans {xs ys zs : List Char} (h1 : clLt xs ys = true)
    (h2 : clLt ys zs = true) : clLt xs zs = true := by
  induction xs generalizing ys zs with
  | nil =>
      cases zs with
      | nil =>
          cases ys with
          | nil => simp [clLt] at h1
          | cons b bs => simp [clLt] at h2
      | cons c cs => simp [clLt]
  | cons a as ih =>
      cases ys with
      | nil => simp [clLt] at h1
      | cons b bs =>
          cases zs with
          | nil => simp [clLt] at h2
          | cons c cs =>
              by_cases hab : a = b <;> by_cases hbc : b = c
              · have hac : a = c := hab.trans hbc
                subst hac; subst hab
                simp [clLt] at h1 h2 ⊢
                exact ih h1 h2
              · have hac : ¬a = c := fun h => hbc (hab.symm.trans h)
                have hn : b.toNat < c.toNat := by simpa [clLt, hbc] using h2
                have : a.toNat < c.toNat := by rw [hab]; exact hn
                simp [clLt, hac, this]
              · have hac : ¬a = c := fun h => hab (h.trans hbc.symm)
                have hn : a.toNat < b.toNat := by simpa [clLt, hab] using h1
                have : a.toNat < c.toNat := by rw [← hbc]; exact hn
                simp [clLt, hac, this]
              · have hn1 : a.toNat < b.toNat := by simpa [clLt, hab] using h1
                have hn2 : b.toNat < c.toNat := by simpa [clLt, hbc] using h2
                have hlt : a.toNat < c.toNat := hn1.trans hn2
                have hac : ¬a = c := fun h => by
                  rw [h] at hlt
                  omega
                simp [clLt, hac, hlt]

theorem clLe_iff (xs ys : List Char) :
    clLe xs ys = true ↔ xs = ys ∨ clLt xs ys = true := by
  induction xs generalizing ys with
  | nil => cases ys <;> simp [clLe, clLt]
  | cons a as ih =>
      cases ys with
      | nil => simp [clLe, clLt]
      | cons b bs =>
          by_cases hab : a = b
          · subst hab
            simp [clLe, clLt, ih]
          · simp [clLe, clLt, hab]

theorem clLe_trans {xs ys zs : List Char} (h1 : clLe xs ys = true)
    (h2 : clLe ys zs = true) : clLe xs zs = true := by
  rcases (clLe_iff _ _).mp h1 with rfl | h1'
  · exact h2
  · rcases (clLe_iff _ _).mp h2 with rfl | h2'
    · exact (clLe_iff _ _).mpr (Or.inr h1')
    · exact (clLe_iff _ _).mpr (Or.inr (clLt_trans h1' h2'))

theorem clLe_total (xs ys : List Char) : clLe xs ys = true ∨ clLe ys xs = true := by
  rcases clLt_trichotomy xs ys with rfl | h | h
  · exact Or.inl ((clLe_iff _ _).mpr (Or.inl rfl))
  · exact Or.inl ((clLe_iff _ _).mpr (Or.inr h))
  · exact Or.inr ((clLe_iff _ _).mpr (Or.inr h))

/-- The ordering on nodes used by `sorted(nodes, key=...)`. -/
def nodeRel (a b : RNode) : Prop :=
  nodeTier a < nodeTier b ∨ (nodeTier a = nodeTier b ∧ clLe a.str.data b.str.data = true)

instance : DecidableRel nodeRel := fun a b => by
  unfold nodeRel; infer_instance

instance : IsTotal RNode nodeRel where
  total a b := by
    rcases Nat.lt_trichotomy (nodeTier a) (nodeTier b) with h | h | h
    · exact Or.inl (Or.inl h)
    · rcases clLe_total a.str.data b.str.data with h' | h'
      · exact Or.inl (Or.inr ⟨h, h'⟩)
      · exact Or.inr (Or.inr ⟨h.symm, h'⟩)
    · exact Or.inr (Or.inl h)

instance : IsTrans RNode nodeRel where
  trans a b c hab hbc := by
    rcases hab with h1 | ⟨e1, l1⟩ <;> rcases hbc with h2 | ⟨e2, l2⟩
    · exact Or.inl (h1.trans h2)
    · exact Or.inl (e2 ▸ h1)
    · exact Or.inl (e1 ▸ h2)
    · exact Or.inr ⟨e1.trans e2, clLe_trans l1 l2⟩

/-- Model of `sorted(nodes, key=node_sort_key)`. -/
def sortNodes (l : List RNode) : List RNode :=
  l.insertionSort nodeRel

/-- Ordering on strings used for sorting identifiers. -/
def strRel (a b : String) : Prop := clLe a.data b.data = true

instance : DecidableRel strRel := fun a b => by
  unfold strRel; infer_instance

instance : IsTotal String strRel := ⟨fun a b => clLe_total a.data b.data⟩

instance : IsTrans String strRel := ⟨fun _ _ _ => clLe_trans⟩

/-- Lexicographic `≤` on pairs of naturals (sort keys of `best_label`). -/
def pairLe (x y : Nat × Nat) : Prop :=
  x.1 < y.1 ∨ (x.1 = y.1 ∧ x.2 ≤ y.2)

/-! ### Label selection (`best_label`) -/

/-- Model of `best_label`'s score: language rank (untagged or `"en"` first), then
label length. -/
def litScore (n : RNode) : Nat × Nat :=
  match n with
  | .lit lex lang _ =>
      let lg := lowerStr (lang.getD "").data
      ((if lg = "" ∨ lg = "en" then 0 else 1), lex.length)
  | _ => (1, n.str.length)

def litRel (a b : RNode) : Prop := pairLe (litScore a) (litScore b)

instance : DecidableRel litRel := fun a b => by
  unfold litRel pairLe; infer_instance

instance : IsTotal RNode litRel where
  total a b := by
    unfold litRel pairLe
    rcases Nat.lt_trichotomy (litScore a).1 (litScore b).1 with h | h | h
    · exact Or.inl (Or.inl h)
    · rcases Nat.le_total (litScore a).2 (litScore b).2 with h' | h'
      · exact Or.inl (Or.inr ⟨h, h'⟩)
      · exact Or.inr (Or.inr ⟨h.symm, h'⟩)
    · exact Or.inr (Or.inl h)

instance : IsTrans RNode litRel where
  trans a b c hab hbc := by
    rcases hab with h1 | ⟨e1, l1⟩ <;> rcases hbc with h2 | ⟨e2, l2⟩
    · exact Or.inl (h1.trans h2)
    · exact Or.inl (e2 ▸ h1)
    · exact Or.inl (e1 ▸ h2)
    · exact Or.inr ⟨e1.trans e2, l1.trans l2⟩

/-- Model of `best_label`: the stably-least literal under `litScore`, as a string. -/
def bestLabel (lits : List RNode) : Option String :=
  ((lits.insertionSort litRel).head?).map RNode.str

/-! ### Ontology index, remote cache and configuration -/

/-- Model of `FullOntologyIndex`: label and parent lookups over the merged local
`*_full.ttl` files. -/
structure FOIndex where
  labels : List (String × String)
  parents : List (String × List String)
deriving Repr

/-- Model of `FullOntologyIndex.label_for`. -/
def FOIndex.labelFor (fo : FOIndex) (iri : String) : Option String :=
  (fo.labels.find? (fun kv => kv.1 = iri)).map Prod.snd

/-- Model of `FullOntologyIndex.parents_of` (the stored parent set, in its
iteration order). -/
def FOIndex.parentsOf (fo : FOIndex) (iri : String) : List String :=
  ((fo.parents.find? (fun kv => kv.1 = iri)).map Prod.snd).getD []

/-- The query surface of `OntologyCache` (remote enrichment).  The class
performs network downloads and on-disk caching; the converter only calls
`label_for` and `superclasses`, so the cache is abstracted to those two
queries. -/
structure RemoteCache where
  labelFor : String → Option String
  superclasses : String → Nat → List (String × String)

/-- Output format (`output_format` after validation). -/
inductive OutFmt where
  | dot
  | mermaid
deriving DecidableEq, Repr

/-- The converter configuration (`RdfToDiagram.__init__` state). -/
structure Config where
  direction : String := "BT"
  format : OutFmt := .mermaid
  includeBnodes : Bool := true
  enrich : Bool := false
  superclassDepth : Nat := 0
  remote : Option RemoteCache := none
  fullOntology : Option FOIndex := none
  useFullHierarchy : Bool := true
  hierarchyRoot : String := bfoEntityIri
  hierarchyMaxDepth : Nat := 50
  maxNodes : Nat := 500
  maxEdges : Nat := 1500

/-! ### Label resolution (`_exact_prefix_token`, `_node_label`,
`_predicate_label`) -/

/-- Model of `_exact_prefix_token`: the first namespace binding whose namespace IRI
equals the node's IRI. -/
def exactToken (g : RGraph) (iri : String) : Option String :=
  (g.nss.find? (fun pn => pn.2 = iri)).map Prod.fst

/-- Modelled rdflib collaborator `NamespaceManager.normalizeUri`: `some
"pfx:local"` when a binding's namespace is a non-empty prefix of the IRI
(first binding wins), `none` for the `"<uri>"` outcome and the exception
path. -/
def normalizeUriM (g : RGraph) (iri : String) : Option String :=
  (g.nss.find? (fun pn => pn.2 ≠ "" && strStartsWith iri pn.2)).map
    (fun pn => pn.1 ++ ":" ++ strDrop iri pn.2.length)

/-- The qualified label form: prefix, colon and core when an ontology
source token is known, else the bare core. -/
def qualify (pfx : Option String) (core : String) : String :=
  match pfx with
  | some p => p ++ ":" ++ core
  | none => core

/-- The exact-prefix-token result: qualified only when the token itself
contains no colon. -/
def qualifyToken (pfx : Option String) (token : String) : String :=
  match pfx with
  | some p => if token.data.contains ':' then token else p ++ ":" ++ token
  | none => token

/-- The shared qname/local-name fallback tail of `_node_label` and
`_predicate_label`. -/
def qnameFallback (g : RGraph) (pfx : Option String) (iri : String) : String :=
  match normalizeUriM g iri with
  | none => qualify pfx (uriLocalName iri)
  | some q => if strEndsWith q ":" then strDropRight q 1 else q

/-- Model of `RdfToDiagram._node_label`. -/
def nodeLabel (cfg : Config) (g : RGraph) (n : RNode) : String :=
  match n with
  | .lit lex _ _ => lex
  | .bnode b => "_:" ++ b
  | .uri iri =>
      let pfx := oboPrefixForIri iri
      match exactToken g iri with
      | some token => qualifyToken pfx token
      | none =>
          match bestLabel (g.localLabelLits (.uri iri)) with
          | some l0 => qualify pfx (normalizeLabel l0)
          | none =>
              match cfg.fullOntology.bind (fun fo => fo.labelFor iri) with
              | some l1 => qualify pfx (normalizeLabel l1)
              | none =>
                  match cfg.remote.bind (fun rc => rc.labelFor iri) with
                  | some l2 => qualify pfx (normalizeLabel l2)
                  | none => qnameFallback g pfx iri

/-- Model of `RdfToDiagram._predicate_label`.  Note the tier order: the
exact-prefix token is consulted *after* the local label, the ontology
index and the remote cache. -/
def predicateLabel (cfg : Config) (g : RGraph) (pred : String) : String :=
  if pred = rdfTypeIri then "rdf:type"
  else if pred = rdfsSubClassOfIri then "rdfs:subClassOf"
  else
    let pfx := oboPrefixForIri pred
    match bestLabel (g.localLabelLits (.uri pred)) with
    | some l0 => qualify pfx (normalizeLabel l0)
    | none =>
        match cfg.fullOntology.bind (fun fo => fo.labelFor pred) with
        | some l1 => qualify pfx (normalizeLabel l1)
        | none =>
            match cfg.remote.bind (fun rc => rc.labelFor pred) with
            | some l2 => qualify pfx (normalizeLabel l2)
            | none =>
                match exactToken g pred with
                | some token => qualifyToken pfx token
                | none => qnameFallback g pfx pred

/-! ### Set model

Python `set`s are modelled as duplicate-free lists in insertion order
(`setInsert`); where the program sorts a set before use the list order is
immaterial, and where it iterates a set directly the list order models the
interpreter's unspecified set-iteration order. -/

def setInsert [DecidableEq α] (x : α) (l : List α) : List α :=
  if x ∈ l then l else l ++ [x]

/-- Python dict assignment `d[k] = v`: update in place, else append. -/
def assocSet [DecidableEq κ] (k : κ) (v : ν) : List (κ × ν) → List (κ × ν)
  | [] => [(k, v)]
  | (k', v') :: rest => if k' = k then (k, v) :: rest else (k', v') :: assocSet k v rest

/-- Python dict lookup `d.get(k)`. -/
def assocGet [DecidableEq κ] (k : κ) (l : List (κ × ν)) : Option ν :=
  (l.find? (fun kv => kv.1 = k)).map Prod.snd

/-! ### RDF list extraction (`_extract_list_items`)

Models the rdflib collaborator `Graph.items`: follow `rdf:first` /
`rdf:rest` links, skipping nodes without `rdf:first`, stopping when
`rdf:rest` is absent, and failing (`none`, the exception path) on a
`rdf:rest` cycle.  The fuel is an upper bound on the chain length and is
never exhausted for well-formed inputs. -/

def listItemsAux (g : RGraph) : Nat → List RNode → RNode → Option (List RNode)
  | 0, _, _ => none
  | fuel + 1, chain, cur =>
      let item := g.valueOf cur rdfFirstIri
      let tail := match g.valueOf cur rdfRestIri with
        | none => some []
        | some r =>
            if chain.contains r then none
            else listItemsAux g fuel (r :: chain) r
      match tail, item with
      | some tl, some it => some (it :: tl)
      | some tl, none => some tl
      | none, _ => none

/-- Model of `RdfToDiagram._extract_list_items`. -/
def extractListItems (g : RGraph) (head : RNode) : Option (List RNode) :=
  listItemsAux g (g.triples.length + 1) [head] head

/-! ### Graph collection (`_collect_schema_and_instances`) -/

/-- The `rdf:type` classification pass: returns `(shapes, classes)`. -/
def collectTypeSets (g : RGraph) : List String × List String :=
  g.triples.foldl
    (fun (acc : List String × List String) t =>
      if t.p = rdfTypeIri then
        match t.o with
        | .uri oIri =>
            let shapes :=
              if oIri = shNodeShapeIri ∨ oIri = shPropertyShapeIri ∨ oIri = shShapeIri then
                (match t.s with | .uri sIri => setInsert sIri acc.1 | _ => acc.1)
              else acc.1
            let classes :=
              if oIri = owlClassIri ∨ oIri = rdfsClassIri then
                (match t.s with | .uri sIri => setInsert sIri acc.2 | _ => acc.2)
              else acc.2
            let classes :=
              if implicitTopClasses.contains oIri then classes else setInsert oIri classes
            (shapes, classes)
        | _ => acc
      else acc)
    ([], [])

/-- The `rdfs:subClassOf` classification pass. -/
def collectSubClassPass (g : RGraph) (classes0 : List String) : List String :=
  g.triples.foldl
    (fun classes t =>
      if t.p = rdfsSubClassOfIri then
        match t.o with
        | .uri oIri =>
            if implicitTopClasses.contains oIri then classes
            else
              let classes := match t.s with | .uri sIri => setInsert sIri classes | _ => classes
              setInsert oIri classes
        | _ =>
            match t.s with | .uri sIri => setInsert sIri classes | _ => classes
      else classes)
    classes0

/-- The `sh:in` categorical-members pass. -/
def collectCategorical (g : RGraph) : List String :=
  g.triples.foldl
    (fun categorical t =>
      if t.p = shInIri then
        match t.o with
        | .bnode b =>
            match extractListItems g (.bnode b) with
            | some (it :: its) =>
                (it :: its).foldl
                  (fun acc n => match n with | .uri i => setInsert i acc | _ => acc)
                  categorical
            | _ => categorical
        | _ => categorical
      else categorical)
    []

/-- Is the node one of the implicit top classes? -/
def isImplicitTop (n : RNode) : Bool :=
  match n with
  | .uri i => implicitTopClasses.contains i
  | _ => false

/-- One iteration of the edge-materialization loop over all triples. -/
def collectStep (cfg : Config) (g : RGraph) (acc : List RNode × List RTriple)
    (t : RTriple) : List RNode × List RTriple :=
  if t.p = rdfFirstIri ∨ t.p = rdfRestIri then acc
  else if t.p = rdfTypeIri ∧ t.o = .uri owlOntologyIri then acc
  else if isImplicitTop t.s || isImplicitTop t.o then acc
  else
    match (if shaclListPredicates.contains t.p then
             match t.o with
             | .bnode b => extractListItems g (.bnode b)
             | _ => none
           else none) with
    | some (it :: its) =>
        (it :: its).foldl
          (fun (a : List RNode × List RTriple) item =>
            (setInsert item (setInsert t.s a.1), a.2 ++ [⟨t.s, t.p, item⟩]))
          acc
    | _ =>
        if ¬cfg.includeBnodes ∧ (t.s.isBNode ∨ t.o.isBNode) then acc
        else (setInsert t.o (setInsert t.s acc.1), acc.2 ++ [t])

/-- The edge-materialization loop. -/
def collectEdges (cfg : Config) (g : RGraph) : List RNode × List RTriple :=
  g.triples.foldl (collectStep cfg g) ([], [])

/-- The node size-control step (lines 1106-1109): over the cap, keep the
first `maxN` nodes of the deterministic ordering. -/
def truncateNodes (maxN : Nat) (nodes : List RNode) : List RNode :=
  if nodes.length > maxN then (sortNodes nodes).take maxN else nodes

/-- The edge size-control step (lines 1111-1113). -/
def truncateEdges (maxE : Nat) (edges : List RTriple) : List RTriple :=
  if edges.length > maxE then edges.take maxE else edges

/-- The remote-enrichment pass (lines 1115-1126). -/
def enrichPass (cfg : Config) (classes : List String) (nodes : List RNode)
    (edges : List RTriple) : List String × List RNode × List RTriple :=
  match cfg.remote with
  | some rc =>
      if cfg.enrich ∧ 0 < cfg.superclassDepth then
        let extra := classes.foldl
          (fun acc c =>
            (rc.superclasses c cfg.superclassDepth).foldl (fun a e => setInsert e a) acc) []
        extra.foldl
          (fun (st : List String × List RNode × List RTriple) cp =>
            if implicitTopClasses.contains cp.2 then st
            else
              (setInsert cp.2 (setInsert cp.1 st.1),
               setInsert (RNode.uri cp.2) (setInsert (RNode.uri cp.1) st.2.1),
               st.2.2 ++ [⟨.uri cp.1, rdfsSubClassOfIri, .uri cp.2⟩]))
          (classes, nodes, edges)
      else (classes, nodes, edges)
  | none => (classes, nodes, edges)

/-! ### Hierarchy expansion (`_add_full_hierarchy`)

The breadth-first walk over `index.parents_of`, with per-start visited
set, root / depth cutoffs, edge-set dedup and the global size-cap early
return.  The loop is written with explicit fuel; the termination theorem
shows the fuel bound `hierFuel` is never exhausted.  The walk also logs
every enqueued node, to state the no-re-enqueue property. -/

structure HState where
  classes : List String
  nodes : List RNode
  edges : List RTriple
deriving Repr

/-- Result of processing the parents of one dequeued node: either the
size-cap early `return`, or the updated visited set, the new frontier
entries and the updated state. -/
inductive StepRes where
  | stop (st : HState)
  | go (vis : List String) (pushes : List (String × Nat)) (st : HState)

/-- Model of `if triple not in edge_set: edges.append(triple); edge_set.add(triple)`. -/
def dedupAppend (tr : RTriple) (edges : List RTriple) : List RTriple :=
  if tr ∈ edges then edges else edges ++ [tr]

/-- The `for parent in parents_of(cur)` body. -/
def foldParents (root : String) (maxN maxE : Nat) (cur : String) (depth : Nat) :
    List String → List String → List (String × Nat) → HState → StepRes
  | [], vis, pushes, st => .go vis pushes st
  | p :: ps, vis, pushes, st =>
      if implicitTopClasses.contains p then
        foldParents root maxN maxE cur depth ps vis pushes st
      else
        let edges' := dedupAppend ⟨.uri cur, rdfsSubClassOfIri, .uri p⟩ st.edges
        let nodes' := setInsert (RNode.uri p) (setInsert (RNode.uri cur) st.nodes)
        let classes' := setInsert p st.classes
        let st' : HState := ⟨classes', nodes', edges'⟩
        if maxN ≤ nodes'.length ∨ maxE ≤ edges'.length then .stop st'
        else if p ∉ vis ∧ p ≠ root then
          foldParents root maxN maxE cur depth ps (vis ++ [p])
            (pushes ++ [(p, depth + 1)]) st'
        else
          foldParents root maxN maxE cur depth ps vis pushes st'

/-- The `while frontier` loop for one starting class; returns the final
state, the log of enqueued nodes and whether the size cap fired. -/
def hierLoop (fo : FOIndex) (root : String) (maxDepth maxN maxE : Nat) :
    Nat → List (String × Nat) → List String → List String → HState →
    Option (HState × List String × Bool)
  | _, [], _, enq, st => some (st, enq, false)
  | 0, _ :: _, _, _, _ => none
  | fuel + 1, (cur, depth) :: rest, vis, enq, st =>
      if cur = root ∨ maxDepth ≤ depth then
        hierLoop fo root maxDepth maxN maxE fuel rest vis enq st
      else
        match foldParents root maxN maxE cur depth (fo.parentsOf cur) vis [] st with
        | .stop st' => some (st', enq, true)
        | .go vis' pushes st' =>
            hierLoop fo root maxDepth maxN maxE fuel (rest ++ pushes) vis'
              (enq ++ pushes.map Prod.fst) st'

/-- All parent IRIs stored in the index (the walk never enqueues anything
else). -/
def hierUniv (fo : FOIndex) : List String :=
  (fo.parents.map Prod.snd).flatten

/-- Fuel bound: enough for the initial frontier plus one enqueue per
distinct parent IRI. -/
def hierFuel (fo : FOIndex) : Nat :=
  (hierUniv fo).dedup.length + 2

/-- The `for start in list(classes)` outer loop, with the early `return`
aborting the remaining starts. -/
def hierStarts (fo : FOIndex) (root : String) (maxDepth maxN maxE : Nat) :
    List String → HState → Option (HState × List (List String))
  | [], st => some (st, [])
  | start :: starts, st =>
      match hierLoop fo root maxDepth maxN maxE (hierFuel fo)
          [(start, 0)] [start] [start] st with
      | none => none
      | some (st', enq, true) => some (st', [enq])
      | some (st', enq, false) =>
          (hierStarts fo root maxDepth maxN maxE starts st').map
            (fun r => (r.1, enq :: r.2))

/-- Model of `RdfToDiagram._add_full_hierarchy` (the guard on line 996 plus the
walk).  `none` is the internal out-of-fuel marker, proved unreachable. -/
def addFullHierarchy (cfg : Config) (classes : List String) (nodes : List RNode)
    (edges : List RTriple) : Option (HState × List (List String)) :=
  if cfg.useFullHierarchy then
    match cfg.fullOntology with
    | none => some (⟨classes, nodes, edges⟩, [])
    | some fo =>
        hierStarts fo cfg.hierarchyRoot cfg.hierarchyMaxDepth cfg.maxNodes cfg.maxEdges
          classes ⟨classes, nodes, edges⟩
  else some (⟨classes, nodes, edges⟩, [])

/-- Model of `_collect_schema_and_instances`: classification passes, edge
materialization, size control, optional remote enrichment and hierarchy
expansion. -/
def collectAll (cfg : Config) (g : RGraph) :
    Option (List String × List String × List String × List RNode × List RTriple) :=
  let (shapes, classes) := collectTypeSets g
  let classes := collectSubClassPass g classes
  let categorical := collectCategorical g
  let (nodes, edges) := collectEdges cfg g
  let nodes := truncateNodes cfg.maxNodes nodes
  let edges := truncateEdges cfg.maxEdges edges
  let (classes, nodes, edges) := enrichPass cfg classes nodes edges
  if cfg.useFullHierarchy then
    (addFullHierarchy cfg classes nodes edges).map
      (fun r => (r.1.classes, shapes, categorical, r.1.nodes, r.1.edges))
  else some (classes, shapes, categorical, nodes, edges)

/-! ### Identifier and metadata assignment (`_assign_ids_and_metadata`) -/

structure NodeInfo where
  nodeId : String
  label : String
  kind : String
  uri : String
deriving DecidableEq, Repr

/-- A `node_data` entry `{label, type, uri}`. -/
structure NData where
  label : String
  kind : String
  uri : String
deriving DecidableEq, Repr

/-- Model of `_kind_for_uri`. -/
def kindForUri (iri : String) (classes shapes categorical : List String) : String :=
  if shapes.contains iri then "SHACL Shape"
  else if classes.contains iri then "Class"
  else if categorical.contains iri then "Categorical"
  else "Individual"

/-- The base identifier computed by `_assign_ids_and_metadata` before
collision handling. -/
def baseId (g : RGraph) (n : RNode) : String :=
  match n with
  | .lit lex _ _ => "val_" ++ safeMermaidId lex
  | .bnode b => "bn_" ++ safeMermaidId b
  | .uri iri =>
      match exactToken g iri with
      | some token => safeMermaidId token
      | none =>
          let qname := match normalizeUriM g iri with
            | some q => q
            | none => uriLocalName iri
          safeMermaidId (String.mk (qname.data.map (fun c => if c = ':' then '_' else c)))

/-- The `kind` and `uri` fields assigned to a node. -/
def kindUriOf (n : RNode) (classes shapes categorical : List String) : String × String :=
  match n with
  | .lit _ _ _ => ("Literal", "")
  | .bnode _ => ("Constraint", "")
  | .uri iri => (kindForUri iri classes shapes categorical, iri)

/-- One iteration of the assignment loop.  `hashFn` models the process's
(salted) Python `abs(hash((diagram_id, str(n))))`. -/
def assignStep (hashFn : String → String → Nat) (did : String) (cfg : Config)
    (g : RGraph) (classes shapes categorical : List String)
    (acc : List String × List (RNode × NodeInfo) × List (String × NData))
    (n : RNode) : List String × List (RNode × NodeInfo) × List (String × NData) :=
  let (usedIds, infos, ndata) := acc
  let label := nodeLabel cfg g n
  let (kind, uriStr) := kindUriOf n classes shapes categorical
  let base := baseId g n
  let nodeId :=
    if usedIds.contains base then base ++ "_" ++ toString (hashFn did n.str % 100000)
    else base
  let info : NodeInfo := ⟨nodeId, label, kind, uriStr⟩
  (setInsert nodeId usedIds, assocSet n info infos, assocSet nodeId ⟨label, kind, uriStr⟩ ndata)

/-- Model of `_assign_ids_and_metadata`: process the node set in the fixed sorted
order; the input list's order models the set's iteration order, which
breaks ties between distinct literals sharing a lexical form. -/
def assignIds (hashFn : String → String → Nat) (did : String) (cfg : Config)
    (g : RGraph) (classes shapes categorical : List String) (nodes : List RNode) :
    List (RNode × NodeInfo) × List (String × NData) :=
  let out := (sortNodes nodes).foldl
    (assignStep hashFn did cfg g classes shapes categorical) ([], [], [])
  (out.2.1, out.2.2)

/-- Model of `_set_predicate_cache`. -/
def setPredCache (cfg : Config) (g : RGraph) (edges : List RTriple) :
    List (String × String) :=
  edges.foldl (fun cache t => assocSet t.p (predicateLabel cfg g t.p) cache) []

/-! ### Style tables -/

/-- Model of `CLASSDEF_STYLES`. -/
def classdefStyles : List (String × String) :=
  [("cls", "fill:#FDFDC8,stroke:#D4D48A,stroke-width:2px,color:#333333"),
   ("ind", "fill:#E6E6E6,stroke:#AAAAAA,stroke-width:2px,color:#333333"),
   ("lit", "fill:#93D053,stroke:#6BA33A,stroke-width:2px,color:#333333"),
   ("cat", "fill:#99F6E4,stroke:#0D9488,stroke-width:2px,color:#134E4A"),
   ("shacl", "fill:#A5F3FC,stroke:#0891B2,stroke-width:2px,color:#164E63"),
   ("constraint", "fill:#FED7AA,stroke:#EA580C,stroke-width:2px,color:#7C2D12"),
   ("bfo", "fill:#F556CB,stroke:#C93DA0,stroke-width:2px,color:#333333"),
   ("obi", "fill:#F5D5B1,stroke:#D4B08A,stroke-width:2px,color:#333333"),
   ("cob", "fill:#93AFF3,stroke:#6B8AD6,stroke-width:2px,color:#333333"),
   ("pmd", "fill:#46CAD3,stroke:#2EA0A8,stroke-width:2px,color:#333333"),
   ("pmdco", "fill:#46CAD3,stroke:#2EA0A8,stroke-width:2px,color:#333333"),
   ("iao", "fill:#F6A252,stroke:#D4803A,stroke-width:2px,color:#333333"),
   ("ro", "fill:#F43F5E,stroke:#C4283F,stroke-width:2px,color:#FFFFFF"),
   ("qudt", "fill:#C9DBFE,stroke:#8AAAD6,stroke-width:2px,color:#333333")]

/-- Model of `GRAPHVIZ_NODE_STYLES`. -/
def graphvizNodeStyles : List (String × List (String × String)) :=
  [("cls", [("fillcolor", "#FDFDC8"), ("color", "#D4D48A"), ("penwidth", "2"), ("fontcolor", "#333333")]),
   ("ind", [("fillcolor", "#E6E6E6"), ("color", "#AAAAAA"), ("penwidth", "2"), ("fontcolor", "#333333")]),
   ("lit", [("fillcolor", "#93D053"), ("color", "#6BA33A"), ("penwidth", "2"), ("fontcolor", "#333333")]),
   ("cat", [("fillcolor", "#99F6E4"), ("color", "#0D9488"), ("penwidth", "2"), ("fontcolor", "#134E4A")]),
   ("shacl", [("fillcolor", "#A5F3FC"), ("color", "#0891B2"), ("penwidth", "2"), ("fontcolor", "#164E63")]),
   ("constraint", [("fillcolor", "#FED7AA"), ("color", "#EA580C"), ("penwidth", "2"), ("fontcolor", "#7C2D12")]),
   ("bfo", [("fillcolor", "#F556CB"), ("color", "#C93DA0"), ("penwidth", "2"), ("fontcolor", "#333333")]),
   ("obi", [("fillcolor", "#F5D5B1"), ("color", "#D4B08A"), ("penwidth", "2"), ("fontcolor", "#333333")]),
   ("cob", [("fillcolor", "#93AFF3"), ("color", "#6B8AD6"), ("penwidth", "2"), ("fontcolor", "#333333")]),
   ("pmd", [("fillcolor", "#46CAD3"), ("color", "#2EA0A8"), ("penwidth", "2"), ("fontcolor", "#333333")]),
   ("pmdco", [("fillcolor", "#46CAD3"), ("color", "#2EA0A8"), ("penwidth", "2"), ("fontcolor", "#333333")]),
   ("iao", [("fillcolor", "#F6A252"), ("color", "#D4803A"), ("penwidth", "2"), ("fontcolor", "#333333")]),
   ("ro", [("fillcolor", "#F43F5E"), ("color", "#C4283F"), ("penwidth", "2"), ("fontcolor", "#FFFFFF")]),
   ("qudt", [("fillcolor", "#C9DBFE"), ("color", "#8AAAD6"), ("penwidth", "2"), ("fontcolor", "#333333")])]

/-- Model of `RdfToDiagram._style_bucket_for_node`. -/
def styleBucketForNode (uriOpt : Option String) (kind : String) : String :=
  if kind = "Literal" then "lit"
  else if kind = "Constraint" then "constraint"
  else if kind = "SHACL Shape" then "shacl"
  else if kind = "Categorical" then "cat"
  else if kind = "Individual" then "ind"
  else
    match uriOpt with
    | some iri =>
        match oboPrefixForIri iri with
        | some bucket => if (assocGet bucket classdefStyles).isSome then bucket else "cls"
        | none => "cls"
    | none => "cls"

/-- Model of `dot_attrs`: keys sorted, values quoted/escaped except HTML-like
labels. -/
def dotAttrs (attrs : List (String × String)) : String :=
  if attrs = [] then ""
  else
    let keys := (attrs.map Prod.fst).insertionSort strRel
    let parts := keys.map (fun k =>
      let v := (assocGet k attrs).getD ""
      if k = "label" ∧ strStartsWith v "<" ∧ strEndsWith v ">" then k ++ "=" ++ v
      else k ++ "=\"" ++ escapeDotLabel v ++ "\"")
    " [" ++ String.intercalate "," parts ++ "]"

/-! ### Renderers -/

/-- Ordering of `NodeInfo` groups (`group.sort(key=lambda ni: ni.node_id)`). -/
def infoRel (a b : NodeInfo) : Prop := clLe a.nodeId.data b.nodeId.data = true

instance : DecidableRel infoRel := fun a b => by
  unfold infoRel; infer_instance

instance : IsTotal NodeInfo infoRel := ⟨fun a b => clLe_total a.nodeId.data b.nodeId.data⟩

instance : IsTrans NodeInfo infoRel := ⟨fun _ _ _ => clLe_trans⟩

/-- A rendered edge record `(source id, predicate label, target id,
is-rdf:type)`. -/
abbrev EdgeRec := String × String × String × Bool

/-- Ordering of rendered edges (`filtered.sort(key=lambda t: (t[0], t[1], t[2]))`). -/
def edgeRel (a b : EdgeRec) : Prop :=
  clLt a.1.data b.1.data = true ∨
    (a.1.data = b.1.data ∧
      (clLt a.2.1.data b.2.1.data = true ∨
        (a.2.1.data = b.2.1.data ∧ clLe a.2.2.1.data b.2.2.1.data = true)))

instance : DecidableRel edgeRel := fun a b => by
  unfold edgeRel; infer_instance

instance : IsTotal EdgeRec edgeRel where
  total a b := by
    unfold edgeRel
    rcases clLt_trichotomy a.1.data b.1.data with h | h | h
    · rcases clLt_trichotomy a.2.1.data b.2.1.data with h' | h' | h'
      · rcases clLe_total a.2.2.1.data b.2.2.1.data with h'' | h''
        · exact Or.inl (Or.inr ⟨h, Or.inr ⟨h', h''⟩⟩)
        · exact Or.inr (Or.inr ⟨h.symm, Or.inr ⟨h'.symm, h''⟩⟩)
      · exact Or.inl (Or.inr ⟨h, Or.inl h'⟩)
      · exact Or.inr (Or.inr ⟨h.symm, Or.inl h'⟩)
    · exact Or.inl (Or.inl h)
    · exact Or.inr (Or.inl h)

instance : IsTrans EdgeRec edgeRel where
  trans a b c hab hbc := by
    rcases hab with h1 | ⟨e1, h1⟩ <;> rcases hbc with h2 | ⟨e2, h2⟩
    · exact Or.inl (clLt_trans h1 h2)
    · exact Or.inl (e2 ▸ h1)
    · exact Or.inl (e1 ▸ h2)
    · refine Or.inr ⟨e1.trans e2, ?_⟩
      rcases h1 with h1 | ⟨f1, h1⟩ <;> rcases h2 with h2 | ⟨f2, h2⟩
      · exact Or.inl (clLt_trans h1 h2)
      · exact Or.inl (f2 ▸ h1)
      · exact Or.inl (f1 ▸ h2)
      · exact Or.inr ⟨f1.trans f2, clLe_trans h1 h2⟩

/-- The five render buckets and the `style_bucket_by_id` map. -/
abbrev GroupAcc :=
  (List NodeInfo × List NodeInfo × List NodeInfo × List NodeInfo × List NodeInfo)
  × List (String × String)

/-- One iteration of the node-grouping loop shared by both renderers. -/
def groupStep (acc : GroupAcc) (ni : RNode × NodeInfo) : GroupAcc :=
  let (groups, buckets) := acc
  let (n, info) := ni
  let (cls, shp, con, abox, litg) := groups
  if info.kind = "Literal" then
    ((cls, shp, con, abox, litg ++ [info]), assocSet info.nodeId "lit" buckets)
  else if info.kind = "Constraint" then
    ((cls, shp, con ++ [info], abox, litg), assocSet info.nodeId "constraint" buckets)
  else if info.kind = "SHACL Shape" then
    ((cls, shp ++ [info], con, abox, litg), assocSet info.nodeId "shacl" buckets)
  else if info.kind = "Class" then
    ((cls ++ [info], shp, con, abox, litg),
     assocSet info.nodeId
       (styleBucketForNode (match n with | .uri i => some i | _ => none) info.kind)
       buckets)
  else if info.kind = "Categorical" then
    ((cls, shp, con, abox ++ [info], litg), assocSet info.nodeId "cat" buckets)
  else
    ((cls, shp, con, abox ++ [info], litg), assocSet info.nodeId "ind" buckets)

/-- The shared node-grouping loop of both renderers: the five render
buckets (in insertion order) and the `style_bucket_by_id` map. -/
def groupInfos (infos : List (RNode × NodeInfo)) : GroupAcc :=
  infos.foldl groupStep (([], [], [], [], []), [])

/-- One iteration of the edge-filtering loop shared by both renderers. -/
def filterStep (cache : List (String × String)) (infos : List (RNode × NodeInfo))
    (acc : List EdgeRec) (t : RTriple) : List EdgeRec :=
  match assocGet t.s infos, assocGet t.o infos with
  | some si, some oi =>
      acc ++ [(si.nodeId, (assocGet t.p cache).getD (uriLocalName t.p), oi.nodeId,
               decide (t.p = rdfTypeIri))]
  | _, _ => acc

/-- The shared edge-filtering loop of both renderers: keep edges whose
endpoints both carry a `NodeInfo`, resolving the predicate label through
the cache. -/
def filteredEdges (cache : List (String × String)) (infos : List (RNode × NodeInfo))
    (edges : List RTriple) : List EdgeRec :=
  edges.foldl (filterStep cache infos) []

/-- Model of `RdfToDiagram._build_mermaid`. -/
def buildMermaid (direction : String) (cache : List (String × String))
    (infos : List (RNode × NodeInfo)) (edges : List RTriple) : String :=
  let (groups, buckets) := groupInfos infos
  let (clsN, shpN, conN, aboxN, litN) := groups
  let clsN := clsN.insertionSort infoRel
  let shpN := shpN.insertionSort infoRel
  let conN := conN.insertionSort infoRel
  let aboxN := aboxN.insertionSort infoRel
  let litN := litN.insertionSort infoRel
  let emitSub := fun (name : String) (nl : List NodeInfo) (lines : List String) =>
    if nl.isEmpty then lines
    else
      lines ++ (["subgraph " ++ name ++ "[\" \"]", "direction " ++ direction]
        ++ nl.map (fun i => "  " ++ i.nodeId ++ "[\"" ++ escapeMermaidLabel i.label ++ "\"]")
        ++ ["end"])
  let lines := ["flowchart " ++ direction]
  let lines := if clsN.isEmpty then lines else emitSub "TBOX" clsN lines
  let lines := if shpN.isEmpty then lines else emitSub "SHAPES" shpN lines
  let lines := if conN.isEmpty then lines else emitSub "CONSTRAINTS" conN lines
  let lines := if aboxN.isEmpty then lines else emitSub "ABOX" aboxN lines
  let lines := lines ++ litN.map
    (fun i => "  " ++ i.nodeId ++ "[\"" ++ escapeMermaidLabel i.label ++ "\"]")
  let filtered := (filteredEdges cache infos edges).insertionSort edgeRel
  let lines := lines ++ filtered.map (fun e =>
    if e.2.2.2 then "  " ++ e.1 ++ " -.->|rdf:type| " ++ e.2.2.1
    else "  " ++ e.1 ++ " -->|" ++ escapeMermaidLabel e.2.1 ++ "| " ++ e.2.2.1)
  let usedStyles := ((buckets.map Prod.snd).dedup).insertionSort strRel
  let lines := lines ++ usedStyles.foldl
    (fun acc cn =>
      match assocGet cn classdefStyles with
      | some style => acc ++ ["classDef " ++ cn ++ " " ++ style ++ ";"]
      | none => acc) []
  let lines := lines ++ usedStyles.foldl
    (fun acc cn =>
      let ids := ((buckets.filter (fun kv => kv.2 = cn)).map Prod.fst).insertionSort strRel
      acc ++ (chunked 12 ids).map
        (fun part => "class " ++ String.intercalate "," part ++ " " ++ cn ++ ";")) []
  let lines := lines ++ (["TBOX", "SHAPES", "CONSTRAINTS", "ABOX"].foldl
    (fun acc sg =>
      if lines.any (fun l => strStartsWith l ("subgraph " ++ sg)) then
        acc ++ ["style " ++ sg ++ " fill:transparent,stroke:transparent;"]
      else acc) [])
  String.intercalate "\n" lines

/-- Model of `kind_shape` in `_build_graphviz`. -/
def kindShape (kind : String) : String :=
  (assocGet kind
    [("Class", "box"), ("Individual", "ellipse"), ("Categorical", "box"),
     ("SHACL Shape", "hexagon"), ("Constraint", "diamond"), ("Literal", "note")]).getD "box"

/-- The DOT attribute dictionary for one node (`emit_nodes` body). -/
def gvNodeAttrs (buckets : List (String × String)) (info : NodeInfo) :
    List (String × String) :=
  let bucket := (assocGet info.nodeId buckets).getD "cls"
  let style := (assocGet bucket graphvizNodeStyles).getD
    ((assocGet "cls" graphvizNodeStyles).getD [])
  let attrs := [("shape", kindShape info.kind), ("style", "filled"), ("margin", "0.2,0.1")]
  let attrs := style.foldl (fun a kv => assocSet kv.1 kv.2 a) attrs
  let attrs :=
    if info.kind = "Class" then
      let escaped := strReplace (strReplace (strReplace info.label "&" "&amp;") "<" "&lt;") ">" "&gt;"
      let fontColor := (assocGet "fontcolor" style).getD "#333333"
      assocSet "label"
        ("<<TABLE BORDER=\"0\" CELLBORDER=\"0\" CELLSPACING=\"0\" CELLPADDING=\"4\"><TR><TD><B><FONT COLOR=\""
          ++ fontColor ++ "\">" ++ escaped ++ "</FONT></B></TD></TR></TABLE>>") attrs
    else assocSet "label" info.label attrs
  if info.uri ≠ "" then
    assocSet "target" "_blank" (assocSet "URL" info.uri (assocSet "tooltip" info.uri attrs))
  else attrs

/-- Model of `RdfToDiagram._build_graphviz`. -/
def buildGraphviz (direction : String) (cache : List (String × String))
    (infos : List (RNode × NodeInfo)) (edges : List RTriple) : String :=
  let (groups, buckets) := groupInfos infos
  let (clsN, shpN, conN, aboxN, litN) := groups
  let clsN := clsN.insertionSort infoRel
  let shpN := shpN.insertionSort infoRel
  let conN := conN.insertionSort infoRel
  let aboxN := aboxN.insertionSort infoRel
  let litN := litN.insertionSort infoRel
  let rankdir := (assocGet direction
    [("TD", "TB"), ("BT", "BT"), ("LR", "LR"), ("RL", "RL")]).getD "BT"
  let emitNodes := fun (nl : List NodeInfo) =>
    nl.map (fun info => "    \"" ++ info.nodeId ++ "\"" ++ dotAttrs (gvNodeAttrs buckets info) ++ ";")
  let emitCluster := fun (name : String) (nl : List NodeInfo) (lines : List String) =>
    if nl.isEmpty then lines
    else
      lines ++ (["  subgraph \"cluster_" ++ name ++ "\" \x7b", "    label=\"\";",
                 "    color=\"transparent\";", "    penwidth=\"0\";", "    style=\"rounded\";"]
        ++ emitNodes nl ++ ["  \x7d"])
  let lines := ["digraph G \x7b", "  rankdir=\"" ++ rankdir ++ "\";",
                "  graph [bgcolor=\"transparent\",compound=\"true\",splines=\"true\"];",
                "  node  [fontname=\"Arial\",fontsize=\"10\"];",
                "  edge  [fontname=\"Arial\",fontsize=\"9\"];"]
  let lines := if clsN.isEmpty then lines else emitCluster "TBOX" clsN lines
  let lines := if shpN.isEmpty then lines else emitCluster "SHAPES" shpN lines
  let lines := if conN.isEmpty then lines else emitCluster "CONSTRAINTS" conN lines
  let lines := if aboxN.isEmpty then lines else emitCluster "ABOX" aboxN lines
  let lines := lines ++ emitNodes litN
  let filtered := (filteredEdges cache infos edges).insertionSort edgeRel
  let lines := lines ++ filtered.map (fun e =>
    let attrs := if e.2.2.2 then [("label", e.2.1), ("style", "dashed")] else [("label", e.2.1)]
    "  \"" ++ e.1 ++ "\" -> \"" ++ e.2.2.1 ++ "\"" ++ dotAttrs attrs ++ ";")
  let lines := lines ++ ["\x7d"]
  String.intercalate "\n" lines

/-! ### Top-level rendering (`render_graph`) -/

structure DiagramResult where
  diagramId : String
  source : String
  format : OutFmt
  nodeData : List (String × NData)
deriving DecidableEq, Repr

/-- Model of `RdfToDiagram.render_graph` on an already-parsed graph (`g` is the
result of `parse_turtle_safely`; `did` is the supplied or slug-derived
diagram identifier; `hashFn` models the process's Python string hash).
`none` is the internal hierarchy-fuel marker, proved unreachable. -/
def renderGraph (cfg : Config) (hashFn : String → String → Nat) (did : String)
    (g : RGraph) : Option DiagramResult :=
  (collectAll cfg g).map (fun r =>
    let (classes, shapes, categorical, nodes, edges) := r
    let (infos, ndata) := assignIds hashFn did cfg g classes shapes categorical nodes
    let cache := setPredCache cfg g edges
    let src := match cfg.format with
      | .dot => buildGraphviz cfg.direction cache infos edges
      | .mermaid => buildMermaid cfg.direction cache infos edges
    ⟨did, src, cfg.format, ndata⟩)

/-! ### Specification-side definitions

These follow the wording of the specification (§4.5, §4.7, §7) and are
compared against the source-derived functions above. -/

/-- First success of a list of attempts. -/
def firstSome (l : List (Option α)) : Option α :=
  l.foldr (fun o acc => o.orElse (fun _ => acc)) none

/-- The §4.5 resolution chain for nodes, as the spec words it: exact-prefix
token, local `rdfs:label`, Ontology Index, Remote Cache, then the
qname/local-name fallback, first success wins. -/
def nodeLabelSpec (cfg : Config) (g : RGraph) (iri : String) : String :=
  let pfx := oboPrefixForIri iri
  (firstSome
    [(exactToken g iri).map (qualifyToken pfx),
     (bestLabel (g.localLabelLits (.uri iri))).map (fun l => qualify pfx (normalizeLabel l)),
     (cfg.fullOntology.bind (fun fo => fo.labelFor iri)).map (fun l => qualify pfx (normalizeLabel l)),
     (cfg.remote.bind (fun rc => rc.labelFor iri)).map (fun l => qualify pfx (normalizeLabel l))]).getD
    (qnameFallback g pfx iri)

/-- The chain the claim asserts for predicates: the two fixed short forms,
then the *same* chain as for nodes (token first). -/
def predLabelClaimSpec (cfg : Config) (g : RGraph) (pred : String) : String :=
  if pred = rdfTypeIri then "rdf:type"
  else if pred = rdfsSubClassOfIri then "rdfs:subClassOf"
  else nodeLabelSpec cfg g pred

/-- The chain the source actually implements for predicates: fixed short
forms, then local label, Ontology Index, Remote Cache, exact-prefix
token, and only then the qname/local-name fallback. -/
def predLabelSpec (cfg : Config) (g : RGraph) (pred : String) : String :=
  if pred = rdfTypeIri then "rdf:type"
  else if pred = rdfsSubClassOfIri then "rdfs:subClassOf"
  else
    let pfx := oboPrefixForIri pred
    (firstSome
      [(bestLabel (g.localLabelLits (.uri pred))).map (fun l => qualify pfx (normalizeLabel l)),
       (cfg.fullOntology.bind (fun fo => fo.labelFor pred)).map (fun l => qualify pfx (normalizeLabel l)),
       (cfg.remote.bind (fun rc => rc.labelFor pred)).map (fun l => qualify pfx (normalizeLabel l)),
       (exactToken g pred).map (qualifyToken pfx)]).getD
      (qnameFallback g pfx pred)

/-- Rename the blank-node identifiers of a node.  Parsing the same Turtle
document twice relates the two parses by such a renaming, because rdflib
allocates fresh (randomized) blank-node identifiers on every parse. -/
def renameBNode (rho : String → String) : RNode → RNode
  | .bnode b => .bnode (rho b)
  | n => n

/-- Apply a blank-node renaming to a parsed graph. -/
def renameGraph (rho : String → String) (g : RGraph) : RGraph :=
  ⟨g.triples.map (fun t => ⟨renameBNode rho t.s, t.p, renameBNode rho t.o⟩), g.nss⟩

/-- Does the parsed graph contain no blank nodes at all? -/
def hasNoBNodes (g : RGraph) : Bool :=
  g.triples.all (fun t => !t.s.isBNode && !t.o.isBNode)

/-- The `--ttl-dir` batch loop of `main` (lines 1690-1697).  There is no
handler around `render_graph`, so a parse failure (Python exception,
modelled as `Except.error`) propagates and aborts the remaining files. -/
def mainBatch (parseOf : String → Except String RGraph) (cfg : Config)
    (hashFn : String → String → Nat) :
    List String → Except String (List (String × Option DiagramResult))
  | [] => .ok []
  | f :: fs =>
      match parseOf f with
      | .error e => .error e
      | .ok g =>
          (mainBatch parseOf cfg hashFn fs).map
            (fun rest => (f, renderGraph cfg hashFn f g) :: rest)

/-- All `NodeInfo`s in the five render buckets of a grouping
accumulator. -/
def groupAccAll (acc : GroupAcc) : List NodeInfo :=
  acc.1.1 ++ acc.1.2.1 ++ acc.1.2.2.1 ++ acc.1.2.2.2.1 ++ acc.1.2.2.2.2

/-- All `NodeInfo`s placed into the five render buckets: both renderers
emit exactly one node-definition statement per entry of this list. -/
def groupAll (infos : List (RNode × NodeInfo)) : List NodeInfo :=
  groupAccAll (groupInfos infos)

/-- The node identifiers for which a node-definition statement is emitted. -/
def definedNodeIds (infos : List (RNode × NodeInfo)) : List String :=
  (groupAll infos).map NodeInfo.nodeId

/-- Count of index parents not yet visited (the termination measure of
the hierarchy walk). -/
def hierCnt (fo : FOIndex) (vis : List String) : Nat :=
  (((hierUniv fo).dedup).filter (fun x => decide (x ∉ vis))).length

/-! ### Concrete fixtures used by witnesses and counterexamples -/

/-- A fixed stand-in for the process's string hash. -/
def hash7 : String → String → Nat := fun _ _ => 7

def cfgPlain : Config := {}

/-- Hierarchy expansion disabled (no index loaded). -/
def cfgNoHier : Config := { useFullHierarchy := false }

def gEmpty : RGraph := ⟨[], []⟩

/-- One triple whose object is a blank node named `a` by the parser. -/
def gBn : RGraph := ⟨[⟨.uri "http://e.o/s", "http://e.o/p", .bnode "a"⟩], []⟩

/-- The same document parsed again, the parser this time naming the blank
node `b`. -/
def gBnRen : RGraph := ⟨[⟨.uri "http://e.o/s", "http://e.o/p", .bnode "b"⟩], []⟩

/-- An injective blank-node renaming exchanging `a` and `b`. -/
def bnodeSwap : String → String :=
  fun s => if s = "a" then "b" else if s = "b" then "a" else s

/-- A blank-node-free graph. -/
def gPlainTriple : RGraph :=
  ⟨[⟨.uri "http://e.o/s", "http://e.o/p", .uri "http://e.o/t"⟩], []⟩

/-- Three distinct literals sharing the lexical form `1` (as written
`"1", "1"@en, "1"^^xsd:integer` in Turtle). -/
def litOne : RNode := .lit "1" none none

def litOneEn : RNode := .lit "1" (some "en") none

def litOneInt : RNode := .lit "1" none (some "int")

/-- A SHACL shape with `sh:in ( "A" "B" "C" )`: the constraint triple plus
the blank-node list spine. -/
def gShaclIn : RGraph :=
  ⟨[⟨.uri "http://e.o/Shape", shInIri, .bnode "l1"⟩,
    ⟨.bnode "l1", rdfFirstIri, .lit "A" none none⟩,
    ⟨.bnode "l1", rdfRestIri, .bnode "l2"⟩,
    ⟨.bnode "l2", rdfFirstIri, .lit "B" none none⟩,
    ⟨.bnode "l2", rdfRestIri, .bnode "l3"⟩,
    ⟨.bnode "l3", rdfFirstIri, .lit "C" none none⟩,
    ⟨.bnode "l3", rdfRestIri, .uri rdfNilIri⟩], []⟩

/-- A predicate IRI that is both bound as an exact namespace token `foo`
and carries a local `rdfs:label "my label"`. -/
def gPredTok : RGraph :=
  ⟨[⟨.uri "http://e.o/p", rdfsLabelIri, .lit "my label" none none⟩],
   [("foo", "http://e.o/p")]⟩

/-- A class with a local `rdfs:label "Widget"`. -/
def gLocalLbl : RGraph :=
  ⟨[⟨.uri "http://e.o/c", rdfsLabelIri, .lit "Widget" none none⟩], []⟩

/-- A configuration whose Ontology Index also maps that class, to a
different label. -/
def cfgIdxLbl : Config :=
  { fullOntology := some ⟨[("http://e.o/c", "IndexLabel")], []⟩ }

/-- Batch parse outcomes: the file `bad` is malformed Turtle, every other
file parses to an empty graph. -/
def parseStub : String → Except String RGraph :=
  fun f => if f = "bad" then .error "ParseError: bad" else .ok gEmpty

/-- A cyclic two-class parent index (`x` and `y` are mutual parents). -/
def foCyclic : FOIndex :=
  ⟨[], [("http://e.o/x", ["http://e.o/y"]), ("http://e.o/y", ["http://e.o/x"])]⟩

/-- A configuration expanding the cyclic index. -/
def cfgCyclic : Config :=
  { fullOntology := some foCyclic, hierarchyRoot := "http://e.o/root" }

/-! ## Helper lemmas -/

theorem assocGet_nil [DecidableEq κ] (k : κ) : assocGet k ([] : List (κ × ν)) = none :=
  rfl

theorem assocGet_cons [DecidableEq κ] (hd : κ × ν) (tl : List (κ × ν)) (k : κ) :
    assocGet k (hd :: tl) = if hd.1 = k then some hd.2 else assocGet k tl := by
  by_cases h : hd.1 = k <;> simp [assocGet, List.find?, h]

theorem assocGet_assocSet [DecidableEq κ] (k k' : κ) (v : ν) (l : List (κ × ν)) :
    assocGet k (assocSet k' v l) = if k = k' then some v else assocGet k l := by
  induction l with
  | nil =>
      by_cases h : k = k'
      · subst h
        simp [assocSet, assocGet_cons]
      · simp [assocSet, assocGet_cons, assocGet, Ne.symm h, h]
  | cons hd tl ih =>
      by_cases h1 : hd.1 = k'
      · by_cases h2 : k = k'
        · subst h2
          simp [assocSet, h1, assocGet_cons]
        · have hbd : hd.1 ≠ k := by rw [h1]; exact Ne.symm h2
          simp [assocSet, h1, assocGet_cons, Ne.symm h2, hbd, h2]
      · by_cases h3 : hd.1 = k
        · have hk : ¬k = k' := by rw [← h3]; exact h1
          simp [assocSet, h1, assocGet_cons, h3, hk]
        · simp [assocSet, h1, assocGet_cons, h3, ih]

theorem mem_of_assocGet [DecidableEq κ] {k : κ} {v : ν} {l : List (κ × ν)}
    (h : assocGet k l = some v) : (k, v) ∈ l := by
  induction l with
  | nil => simp [assocGet] at h
  | cons hd tl ih =>
      rw [assocGet_cons] at h
      by_cases h1 : hd.1 = k
      · simp only [h1, if_pos rfl] at h
        cases hd with
        | mk a b =>
            simp only [Option.some.injEq] at h
            simp_all
      · simp only [h1, if_neg h1] at h
        exact List.mem_cons_of_mem _ (ih h)

theorem mem_assocSet [DecidableEq κ] {x : κ × ν} {k : κ} {v : ν} :
    ∀ {l : List (κ × ν)}, x ∈ assocSet k v l → x = (k, v) ∨ x ∈ l := by
  intro l
  induction l with
  | nil =>
      intro h
      simp [assocSet] at h
      exact Or.inl h
  | cons hd tl ih =>
      intro h
      by_cases h1 : hd.1 = k
      · simp only [assocSet, if_pos h1, List.mem_cons] at h
        rcases h with h | h
        · exact Or.inl h
        · exact Or.inr (List.mem_cons_of_mem _ h)
      · simp only [assocSet, if_neg h1, List.mem_cons] at h
        rcases h with h | h
        · exact Or.inr (by simp [h])
        · rcases ih h with h' | h'
          · exact Or.inl h'
          · exact Or.inr (List.mem_cons_of_mem _ h')

/-! ## Claim C5: the node size-control step -/

/-- C5: for every collected node set and cap `N`: at most `N` nodes is a
no-op; more than `N` keeps exactly `N` nodes, all drawn from the input,
and they are minimal in the documented ordering (URIs, then blank nodes,
then literals, lexicographic within a tier) — every kept node precedes
every dropped node. -/
theorem claim_C5_size_control (N : Nat) (nodes : List RNode) :
    (nodes.length ≤ N → truncateNodes N nodes = nodes) ∧
    (N < nodes.length →
      (truncateNodes N nodes).length = N ∧
      (∀ x ∈ truncateNodes N nodes, x ∈ nodes) ∧
      (∀ x ∈ truncateNodes N nodes, ∀ y ∈ nodes,
        y ∉ truncateNodes N nodes → nodeRel x y)) := by
  constructor
  · intro h
    simp [truncateNodes, Nat.not_lt.mpr h]
  · intro h
    have htr : truncateNodes N nodes = (sortNodes nodes).take N := by
      simp [truncateNodes, h]
    have hlen : (sortNodes nodes).length = nodes.length :=
      List.length_insertionSort nodeRel nodes
    refine ⟨?_, ?_, ?_⟩
    · rw [htr, List.length_take, hlen]
      omega
    · intro x hx
      rw [htr] at hx
      exact (List.mem_insertionSort nodeRel).mp (List.mem_of_mem_take hx)
    · intro x hx y hy hyn
      rw [htr] at hx hyn
      have hys : y ∈ sortNodes nodes := (List.mem_insertionSort nodeRel).mpr hy
      have hsplit : (sortNodes nodes).take N ++ (sortNodes nodes).drop N = sortNodes nodes :=
        List.take_append_drop _ _
      have hydrop : y ∈ (sortNodes nodes).drop N := by
        rcases List.mem_append.mp (hsplit ▸ hys) with h' | h'
        · exact absurd h' hyn
        · exact h'
      have hsorted : List.Sorted nodeRel (sortNodes nodes) :=
        List.sorted_insertionSort nodeRel nodes
      rw [← hsplit] at hsorted
      exact ((List.pairwise_append.mp hsorted).2.2) x hx y hydrop

/-- Witness for C5 at concrete inputs on both sides of the cap. -/
theorem claim_C5_size_control_witness :
    truncateNodes 2 [RNode.uri "a"] = [RNode.uri "a"] ∧
    (truncateNodes 1 [RNode.lit "b" none none, RNode.uri "a"]).length = 1 :=
  ⟨(claim_C5_size_control 2 [RNode.uri "a"]).1 (by decide),
   ((claim_C5_size_control 1 [RNode.lit "b" none none, RNode.uri "a"]).2 (by decide)).1⟩

/-! ## Claim C3: node label resolution order -/

/-- C3: node label resolution tries, in order, the exact-prefix token,
the local `rdfs:label`, the Ontology Index, the Remote Cache, and only
then the qname/local-name fallback, first success wins; consequently,
when no exact-prefix token matches, a node with a local `rdfs:label` gets
its label derived from that local label, independently of the Ontology
Index and the Remote Cache. -/
theorem claim_C3_label_chain :
    (∀ (cfg : Config) (g : RGraph) (iri : String),
      nodeLabel cfg g (.uri iri) = nodeLabelSpec cfg g iri) ∧
    (∀ (cfg cfg' : Config) (g : RGraph) (iri l : String),
      exactToken g iri = none →
      bestLabel (g.localLabelLits (.uri iri)) = some l →
      nodeLabel cfg g (.uri iri) = qualify (oboPrefixForIri iri) (normalizeLabel l) ∧
      nodeLabel cfg g (.uri iri) = nodeLabel cfg' g (.uri iri)) := by
  constructor
  · intro cfg g iri
    unfold nodeLabel nodeLabelSpec firstSome
    cases htok : exactToken g iri <;>
      cases hloc : bestLabel (g.localLabelLits (.uri iri)) <;>
        cases hfo : cfg.fullOntology.bind (fun fo => fo.labelFor iri) <;>
          cases hrc : cfg.remote.bind (fun rc => rc.labelFor iri) <;>
            simp [htok, hloc, hfo, hrc, Option.orElse]
  · intro cfg cfg' g iri l htok hloc
    constructor
    · simp [nodeLabel, htok, hloc]
    · simp [nodeLabel, htok, hloc]

/-- Witness for C3: the local label `Widget` wins over the Ontology Index
entry `IndexLabel`. -/
theorem claim_C3_label_chain_witness :
    nodeLabel cfgIdxLbl gLocalLbl (.uri "http://e.o/c") = "Widget" ∧
    nodeLabel cfgIdxLbl gLocalLbl (.uri "http://e.o/c") =
      nodeLabel cfgPlain gLocalLbl (.uri "http://e.o/c") := by
  have h := claim_C3_label_chain.2 cfgIdxLbl cfgPlain gLocalLbl "http://e.o/c" "Widget"
    (by decide) (by decide)
  exact ⟨by rw [h.1]; decide, h.2⟩

/-! ## Claim C7: predicate label resolution order -/

/-- Counterexample to C7 as stated: for a predicate bound as the exact
namespace token `foo` that also carries a local label `my label`, the
node chain (token first) would give `foo`, but `_predicate_label`
resolves the local label first and yields `my_label`. -/
theorem claim_C7_counterexample :
    predicateLabel cfgPlain gPredTok "http://e.o/p" = "my_label" ∧
    predLabelClaimSpec cfgPlain gPredTok "http://e.o/p" = "foo" ∧
    predicateLabel cfgPlain gPredTok "http://e.o/p" ≠
      predLabelClaimSpec cfgPlain gPredTok "http://e.o/p" := by
  refine ⟨by decide, by decide, by decide⟩

/-- C7 as amended: predicate labels resolve `rdf:type` and
`rdfs:subClassOf` to the fixed short forms first, and then follow the
chain local `rdfs:label`, Ontology Index, Remote Cache, exact-prefix
token, qname/local-name fallback — the token tier sits fourth, not
first. -/
theorem claim_C7_pred_chain (cfg : Config) (g : RGraph) (pred : String) :
    predicateLabel cfg g pred = predLabelSpec cfg g pred := by
  unfold predicateLabel predLabelSpec firstSome
  split_ifs
  · rfl
  · rfl
  · cases hloc : bestLabel (g.localLabelLits (.uri pred)) <;>
      cases hfo : cfg.fullOntology.bind (fun fo => fo.labelFor pred) <;>
        cases hrc : cfg.remote.bind (fun rc => rc.labelFor pred) <;>
          cases htok : exactToken g pred <;>
            simp [hloc, hfo, hrc, htok, Option.orElse]

/-! ## Claim C2: node identifier uniqueness -/

/-- C2 fails on the code: the three distinct literals `"1"`, `"1"@en`,
`"1"^^xsd:integer` share the base identifier `val_n_1`; the collision
suffix is appended without re-checking, so the second and third colliding
literals receive the *same* identifier. -/
theorem claim_C2_duplicate_id :
    litOneEn ≠ litOneInt ∧
    assocGet litOneEn (assignIds hash7 "d" cfgPlain gEmpty [] [] []
      [litOne, litOneEn, litOneInt]).1 =
      some ⟨"val_n_1_7", "1", "Literal", ""⟩ ∧
    assocGet litOneInt (assignIds hash7 "d" cfgPlain gEmpty [] [] []
      [litOne, litOneEn, litOneInt]).1 =
      some ⟨"val_n_1_7", "1", "Literal", ""⟩ := by
  refine ⟨by decide, by decide, by decide⟩

/-! ## Claim C8: stability of the collision suffix -/

/-- Counterexample to C8 as stated: the literals `"1"` and `"1"@en` share
the base identifier and tie in the processing sort, so which of them
receives the bare identifier and which the suffixed one depends on the
set-iteration order feeding the sort — the same node does *not* receive
the same disambiguated ID regardless of processing order. -/
theorem claim_C8_counterexample :
    (assocGet litOneEn (assignIds hash7 "d" cfgPlain gEmpty [] [] []
        [litOne, litOneEn]).1).map NodeInfo.nodeId ≠
    (assocGet litOneEn (assignIds hash7 "d" cfgPlain gEmpty [] [] []
        [litOneEn, litOne]).1).map NodeInfo.nodeId := by
  decide

/-- The identifier-shape invariant is preserved along the assignment
loop: every stored identifier is the node's base, or the base extended
with the hash-derived suffix of `(diagram_id, str(n))`. -/
theorem assign_fold_id_shape (hashFn : String → String → Nat) (did : String)
    (cfg : Config) (g : RGraph) (classes shapes categorical : List String) :
    ∀ (ns : List RNode) (acc : List String × List (RNode × NodeInfo) × List (String × NData)),
      (∀ n info, assocGet n acc.2.1 = some info →
        info.nodeId = baseId g n ∨
        info.nodeId = baseId g n ++ "_" ++ toString (hashFn did n.str % 100000)) →
      ∀ n info,
        assocGet n ((ns.foldl (assignStep hashFn did cfg g classes shapes categorical) acc)).2.1
          = some info →
        info.nodeId = baseId g n ∨
        info.nodeId = baseId g n ++ "_" ++ toString (hashFn did n.str % 100000) := by
  intro ns
  induction ns with
  | nil => exact fun acc hinv n info h => hinv n info h
  | cons m ms ih =>
      intro acc hinv n info h
      obtain ⟨u, i, d⟩ := acc
      refine ih _ ?_ n info h
      intro n' info' h'
      simp only [assignStep] at h'
      rw [assocGet_assocSet] at h'
      by_cases he : n' = m
      · rw [if_pos he] at h'
        subst he
        have : info' = ⟨(if u.contains (baseId g n') then
              baseId g n' ++ "_" ++ toString (hashFn did n'.str % 100000)
            else baseId g n'),
            nodeLabel cfg g n',
            (kindUriOf n' classes shapes categorical).1,
            (kindUriOf n' classes shapes categorical).2⟩ := by
          exact (Option.some.injEq _ _).mp h' |>.symm
        have hni : info'.nodeId =
            (if u.contains (baseId g n') = true then
              baseId g n' ++ "_" ++ toString (hashFn did n'.str % 100000)
            else baseId g n') := by
          rw [this]
        rw [hni]
        by_cases hc : u.contains (baseId g n') = true
        · rw [if_pos hc]
          exact Or.inr rfl
        · rw [if_neg hc]
          exact Or.inl rfl
      · rw [if_neg he] at h'
        exact hinv n' info' h'

/-- C8 as amended: the suffix value, when appended, is a function only of
`(diagram_id, str(n))` — never of a counter or of the processing
position: each assigned identifier is the node's base identifier or that
base extended with `hash(diagram_id, str(n)) % 100000`.  (Whether the
bare or the suffixed form is assigned does depend on the node's position
in the sorted processing order, and Python's `hash` is salted per
process, so cross-process stability additionally needs a fixed
`PYTHONHASHSEED`.) -/
theorem claim_C8_suffix_function (hashFn : String → String → Nat) (did : String)
    (cfg : Config) (g : RGraph) (classes shapes categorical : List String)
    (nodes : List RNode) (n : RNode) (info : NodeInfo)
    (h : assocGet n (assignIds hashFn did cfg g classes shapes categorical nodes).1 = some info) :
    info.nodeId = baseId g n ∨
    info.nodeId = baseId g n ++ "_" ++ toString (hashFn did n.str % 100000) := by
  simp only [assignIds] at h
  exact assign_fold_id_shape hashFn did cfg g classes shapes categorical
    (sortNodes nodes) ([], [], [])
    (fun n' i' h' => by simp [assocGet] at h') n info h

/-- Witness for C8 (amended), at the colliding pair of literals. -/
theorem claim_C8_suffix_function_witness :
    (⟨"val_n_1_7", "1", "Literal", ""⟩ : NodeInfo).nodeId = baseId gEmpty litOneEn ∨
    (⟨"val_n_1_7", "1", "Literal", ""⟩ : NodeInfo).nodeId
      = baseId gEmpty litOneEn ++ "_" ++ toString (hash7 "d" litOneEn.str % 100000) :=
  claim_C8_suffix_function hash7 "d" cfgPlain gEmpty [] [] [] [litOne, litOneEn]
    litOneEn ⟨"val_n_1_7", "1", "Literal", ""⟩ (by decide)

/-! ## Claim C6: SHACL list expansion -/

theorem foldItems_snd (s : RNode) (p : String) :
    ∀ (items : List RNode) (acc : List RNode × List RTriple),
      ((items.foldl (fun (a : List RNode × List RTriple) item =>
        (setInsert item (setInsert s a.1), a.2 ++ [⟨s, p, item⟩])) acc)).2
      = acc.2 ++ items.map (fun it => (⟨s, p, it⟩ : RTriple)) := by
  intro items
  induction items with
  | nil =>
      intro acc
      simp
  | cons it its ih =>
      intro acc
      simp only [List.foldl_cons, List.map_cons]
      rw [ih]
      simp

/-- Expansion equation for one SHACL-list triple: its processing step
appends exactly one `(subject, predicate, item)` edge per list member. -/
theorem collectStep_shacl (cfg : Config) (g : RGraph)
    (acc : List RNode × List RTriple) (t : RTriple) (b : String)
    (it0 : RNode) (its : List RNode)
    (hob : t.o = .bnode b)
    (hp : shaclListPredicates.contains t.p = true)
    (hs : isImplicitTop t.s = false)
    (hitems : extractListItems g (.bnode b) = some (it0 :: its)) :
    (collectStep cfg g acc t).2
      = acc.2 ++ (it0 :: its).map (fun it => (⟨t.s, t.p, it⟩ : RTriple)) := by
  obtain ⟨ts, tp, tob⟩ := t
  simp only at hob
  subst hob
  have hp' : tp ∈ shaclListPredicates := by
    simpa using hp
  have h1 : ¬(tp = rdfFirstIri ∨ tp = rdfRestIri) := by
    simp only [shaclListPredicates, List.mem_cons, List.not_mem_nil, or_false] at hp'
    rcases hp' with h | h | h | h | h <;> subst h <;> decide
  have h2 : ¬(tp = rdfTypeIri ∧ RNode.bnode b = RNode.uri owlOntologyIri) :=
    fun hcon => RNode.noConfusion hcon.2
  have h3 : ¬((isImplicitTop ts || isImplicitTop (RNode.bnode b)) = true) := by
    rw [hs]
    exact fun hcon => Bool.noConfusion hcon
  unfold collectStep
  dsimp only
  rw [if_neg h1, if_neg h2, if_neg h3, if_pos hp, hitems]
  exact foldItems_snd ts tp (it0 :: its) acc

theorem collectStep_snd_mono (cfg : Config) (g : RGraph)
    (acc : List RNode × List RTriple) (t : RTriple) :
    ∃ delta, (collectStep cfg g acc t).2 = acc.2 ++ delta := by
  unfold collectStep
  by_cases h1 : t.p = rdfFirstIri ∨ t.p = rdfRestIri
  · rw [if_pos h1]
    exact ⟨[], by simp⟩
  rw [if_neg h1]
  by_cases h2 : t.p = rdfTypeIri ∧ t.o = .uri owlOntologyIri
  · rw [if_pos h2]
    exact ⟨[], by simp⟩
  rw [if_neg h2]
  by_cases h3 : (isImplicitTop t.s || isImplicitTop t.o) = true
  · rw [if_pos h3]
    exact ⟨[], by simp⟩
  rw [if_neg h3]
  cases hx : (if shaclListPredicates.contains t.p then
      match t.o with
      | RNode.bnode b => extractListItems g (.bnode b)
      | _ => none
    else none) with
  | none =>
      dsimp only
      by_cases h4 : ¬cfg.includeBnodes ∧ (t.s.isBNode ∨ t.o.isBNode)
      · rw [if_pos h4]
        exact ⟨[], by simp⟩
      · rw [if_neg h4]
        exact ⟨[t], rfl⟩
  | some items =>
      cases items with
      | nil =>
          dsimp only
          by_cases h4 : ¬cfg.includeBnodes ∧ (t.s.isBNode ∨ t.o.isBNode)
          · rw [if_pos h4]
            exact ⟨[], by simp⟩
          · rw [if_neg h4]
            exact ⟨[t], rfl⟩
      | cons it its =>
          exact ⟨_, foldItems_snd t.s t.p (it :: its) acc⟩

theorem collect_foldl_mem (cfg : Config) (g : RGraph) :
    ∀ (ts : List RTriple) (acc : List RNode × List RTriple) (e : RTriple),
      e ∈ acc.2 → e ∈ (ts.foldl (collectStep cfg g) acc).2 := by
  intro ts
  induction ts with
  | nil => exact fun acc e he => he
  | cons t ts' ih =>
      intro acc e he
      simp only [List.foldl_cons]
      refine ih _ e ?_
      obtain ⟨delta, hd⟩ := collectStep_snd_mono cfg g acc t
      rw [hd]
      exact List.mem_append_left _ he

/-- C6: for a triple whose predicate is one of `sh:in`, `sh:or`,
`sh:and`, `sh:xone`, `sh:not` and whose object heads a well-formed
non-empty RDF list, collection emits one `(subject, predicate, item)`
edge per list member and no edge from the subject to the blank-node list
head (the head is not among the emitted targets as long as the list does
not contain its own head); each of the per-member edges ends up in the
collected edge list of the whole graph. -/
theorem claim_C6_list_expansion (cfg : Config) (g : RGraph) (nodes : List RNode)
    (edges : List RTriple) (t : RTriple) (b : String) (items : List RNode)
    (hob : t.o = .bnode b)
    (hp : shaclListPredicates.contains t.p = true)
    (hs : isImplicitTop t.s = false)
    (hitems : extractListItems g (.bnode b) = some items)
    (hne : items ≠ []) :
    ((collectStep cfg g (nodes, edges) t).2
        = edges ++ items.map (fun it => (⟨t.s, t.p, it⟩ : RTriple))) ∧
    (RNode.bnode b ∉ items →
      (⟨t.s, t.p, .bnode b⟩ : RTriple) ∉ items.map (fun it => (⟨t.s, t.p, it⟩ : RTriple))) ∧
    (t ∈ g.triples → ∀ it ∈ items, (⟨t.s, t.p, it⟩ : RTriple) ∈ (collectEdges cfg g).2) := by
  obtain ⟨it0, its, rfl⟩ : ∃ it0 its, items = it0 :: its := by
    cases items with
    | nil => exact absurd rfl hne
    | cons a l => exact ⟨a, l, rfl⟩
  refine ⟨collectStep_shacl cfg g (nodes, edges) t b it0 its hob hp hs hitems, ?_, ?_⟩
  · intro hnm hmem
    obtain ⟨it, hit, heq⟩ := List.mem_map.mp hmem
    have : it = .bnode b := congrArg RTriple.o heq
    exact hnm (this ▸ hit)
  · intro htmem it hit
    obtain ⟨l1, l2, hsplit⟩ := List.append_of_mem htmem
    unfold collectEdges
    rw [hsplit, List.foldl_append, List.foldl_cons]
    refine collect_foldl_mem cfg g l2 _ _ ?_
    rw [collectStep_shacl cfg g _ t b it0 its hob hp hs hitems]
    exact List.mem_append_right _ (List.mem_map.mpr ⟨it, hit, rfl⟩)

/-- Witness for C6: the spec's fixture `sh:in ( "A" "B" "C" )` yields
exactly the three edges to the literal nodes `A`, `B`, `C` — never one to
the blank-node list head. -/
theorem claim_C6_list_expansion_witness :
    ((⟨.uri "http://e.o/Shape", shInIri, .lit "A" none none⟩ : RTriple)
        ∈ (collectEdges cfgNoHier gShaclIn).2) ∧
    ((⟨.uri "http://e.o/Shape", shInIri, .lit "B" none none⟩ : RTriple)
        ∈ (collectEdges cfgNoHier gShaclIn).2) ∧
    ((⟨.uri "http://e.o/Shape", shInIri, .lit "C" none none⟩ : RTriple)
        ∈ (collectEdges cfgNoHier gShaclIn).2) ∧
    (collectEdges cfgNoHier gShaclIn).2
      = [⟨.uri "http://e.o/Shape", shInIri, .lit "A" none none⟩,
         ⟨.uri "http://e.o/Shape", shInIri, .lit "B" none none⟩,
         ⟨.uri "http://e.o/Shape", shInIri, .lit "C" none none⟩] := by
  have h := (claim_C6_list_expansion cfgNoHier gShaclIn [] []
    ⟨.uri "http://e.o/Shape", shInIri, .bnode "l1"⟩ "l1"
    [.lit "A" none none, .lit "B" none none, .lit "C" none none]
    rfl (by decide) rfl (by decide) (by decide)).2.2 (by decide)
  exact ⟨h _ (by decide), h _ (by decide), h _ (by decide), by decide⟩

/-! ## Claim C10: every rendered edge endpoint is a defined node -/

theorem groupStep_all_mono (acc : GroupAcc) (x : RNode × NodeInfo) (i : NodeInfo)
    (h : i ∈ groupAccAll acc) : i ∈ groupAccAll (groupStep acc x) := by
  obtain ⟨⟨cls, shp, con, abox, litg⟩, buckets⟩ := acc
  obtain ⟨n, info⟩ := x
  simp only [groupAccAll, List.mem_append] at h
  unfold groupStep
  dsimp only
  split_ifs <;> simp [groupAccAll] <;> tauto

theorem groupStep_all_self (acc : GroupAcc) (x : RNode × NodeInfo) :
    x.2 ∈ groupAccAll (groupStep acc x) := by
  obtain ⟨⟨cls, shp, con, abox, litg⟩, buckets⟩ := acc
  obtain ⟨n, info⟩ := x
  unfold groupStep
  dsimp only
  split_ifs <;> simp [groupAccAll]

theorem groupFold_all_mono (i : NodeInfo) :
    ∀ (infos : List (RNode × NodeInfo)) (acc : GroupAcc),
      i ∈ groupAccAll acc → i ∈ groupAccAll (infos.foldl groupStep acc) := by
  intro infos
  induction infos with
  | nil => exact fun acc h => h
  | cons x rest ih =>
      intro acc h
      exact ih _ (groupStep_all_mono acc x i h)

/-- Every `NodeInfo` stored in the info map lands in one of the five
render buckets, so both renderers emit a node-definition statement for
it. -/
theorem mem_groupAll_of_mem {n : RNode} {i : NodeInfo} :
    ∀ (infos : List (RNode × NodeInfo)), (n, i) ∈ infos → i ∈ groupAll infos := by
  have gen : ∀ (infos : List (RNode × NodeInfo)) (acc : GroupAcc),
      (n, i) ∈ infos → i ∈ groupAccAll (infos.foldl groupStep acc) := by
    intro infos
    induction infos with
    | nil => intro acc h; simp at h
    | cons x rest ih =>
        intro acc h
        rcases List.mem_cons.mp h with h | h
        · subst h
          exact groupFold_all_mono _ rest _ (groupStep_all_self acc (n, i))
        · exact ih _ h
  exact fun infos h => gen infos _ h

/-- Along the assignment loop, every stored `NodeInfo`'s identifier is a
key of the `node_data` map. -/
theorem assign_fold_nd_keys (hashFn : String → String → Nat) (did : String)
    (cfg : Config) (g : RGraph) (classes shapes categorical : List String) :
    ∀ (ns : List RNode) (acc : List String × List (RNode × NodeInfo) × List (String × NData)),
      (∀ pair : RNode × NodeInfo, pair ∈ acc.2.1 →
        (assocGet pair.2.nodeId acc.2.2).isSome = true) →
      ∀ pair : RNode × NodeInfo,
        pair ∈ ((ns.foldl (assignStep hashFn did cfg g classes shapes categorical) acc)).2.1 →
        (assocGet pair.2.nodeId
          ((ns.foldl (assignStep hashFn did cfg g classes shapes categorical) acc)).2.2).isSome
          = true := by
  intro ns
  induction ns with
  | nil => exact fun acc hinv pair h => hinv pair h
  | cons m ms ih =>
      intro acc hinv pair h
      obtain ⟨u, i, d⟩ := acc
      refine ih _ ?_ pair h
      intro pr hpr
      simp only [assignStep] at hpr ⊢
      rcases mem_assocSet hpr with heq | hold
      · subst heq
        rw [assocGet_assocSet]
        simp
      · rw [assocGet_assocSet]
        by_cases hk : pr.2.nodeId =
            (if u.contains (baseId g m) then
              baseId g m ++ "_" ++ toString (hashFn did m.str % 100000)
            else baseId g m)
        · rw [if_pos hk]
          simp
        · rw [if_neg hk]
          exact hinv pr hold

/-- Membership characterization of the filtered edge list. -/
theorem mem_filteredEdges_fold (cache : List (String × String))
    (infos : List (RNode × NodeInfo)) :
    ∀ (edges : List RTriple) (acc : List EdgeRec) (e : EdgeRec),
      e ∈ edges.foldl (filterStep cache infos) acc →
      e ∈ acc ∨ ∃ (t : RTriple) (si oi : NodeInfo),
        assocGet t.s infos = some si ∧ assocGet t.o infos = some oi ∧
        e = (si.nodeId, (assocGet t.p cache).getD (uriLocalName t.p), oi.nodeId,
             decide (t.p = rdfTypeIri)) := by
  intro edges
  induction edges with
  | nil => exact fun acc e h => Or.inl h
  | cons t rest ih =>
      intro acc e h
      rcases ih _ e h with hacc | hex
      · unfold filterStep at hacc
        cases hsi : assocGet t.s infos with
        | none => rw [hsi] at hacc; exact Or.inl hacc
        | some si =>
            cases hoi : assocGet t.o infos with
            | none => rw [hsi, hoi] at hacc; exact Or.inl hacc
            | some oi =>
                rw [hsi, hoi] at hacc
                rcases List.mem_append.mp hacc with h' | h'
                · exact Or.inl h'
                · refine Or.inr ⟨t, si, oi, hsi, hoi, ?_⟩
                  simpa using h'
      · exact Or.inr hex

/-- C10: in both renderers an edge is kept only when both endpoints carry
a `NodeInfo`; both endpoint identifiers of every kept edge are emitted as
node definitions (they are identifiers of bucketed `NodeInfo`s) and are
keys of the returned `node_data` map — for arbitrary edge lists, so in
particular after node-set truncation dropped some endpoints. -/
theorem claim_C10_edge_endpoints (hashFn : String → String → Nat) (did : String)
    (cfg : Config) (g : RGraph) (classes shapes categorical : List String)
    (nodes : List RNode) (edges : List RTriple) (cache : List (String × String))
    (e : EdgeRec)
    (he : e ∈ filteredEdges cache
      (assignIds hashFn did cfg g classes shapes categorical nodes).1 edges) :
    e.1 ∈ definedNodeIds (assignIds hashFn did cfg g classes shapes categorical nodes).1 ∧
    e.2.2.1 ∈ definedNodeIds (assignIds hashFn did cfg g classes shapes categorical nodes).1 ∧
    (assocGet e.1 (assignIds hashFn did cfg g classes shapes categorical nodes).2).isSome
      = true ∧
    (assocGet e.2.2.1 (assignIds hashFn did cfg g classes shapes categorical nodes).2).isSome
      = true := by
  rcases mem_filteredEdges_fold cache _ edges [] e he with hacc | ⟨t, si, oi, hsi, hoi, heq⟩
  · simp at hacc
  · have hsm : (t.s, si) ∈ (assignIds hashFn did cfg g classes shapes categorical nodes).1 :=
      mem_of_assocGet hsi
    have hom : (t.o, oi) ∈ (assignIds hashFn did cfg g classes shapes categorical nodes).1 :=
      mem_of_assocGet hoi
    have hnd : ∀ pair : RNode × NodeInfo,
        pair ∈ (assignIds hashFn did cfg g classes shapes categorical nodes).1 →
        (assocGet pair.2.nodeId
          (assignIds hashFn did cfg g classes shapes categorical nodes).2).isSome = true := by
      intro pair hp
      simp only [assignIds] at hp ⊢
      exact assign_fold_nd_keys hashFn did cfg g classes shapes categorical
        (sortNodes nodes) ([], [], []) (fun pr hpr => by simp at hpr) pair hp
    subst heq
    refine ⟨?_, ?_, hnd (t.s, si) hsm, hnd (t.o, oi) hom⟩
    · exact List.mem_map.mpr ⟨si, mem_groupAll_of_mem _ hsm, rfl⟩
    · exact List.mem_map.mpr ⟨oi, mem_groupAll_of_mem _ hom, rfl⟩

/-- Witness for C10 at a concrete one-edge diagram. -/
theorem claim_C10_edge_endpoints_witness :
    ("s" : String) ∈ definedNodeIds (assignIds hash7 "d" cfgPlain gEmpty [] [] []
      [.uri "http://e.o/s", .uri "http://e.o/t"]).1 ∧
    ("t" : String) ∈ definedNodeIds (assignIds hash7 "d" cfgPlain gEmpty [] [] []
      [.uri "http://e.o/s", .uri "http://e.o/t"]).1 ∧
    (assocGet "s" (assignIds hash7 "d" cfgPlain gEmpty [] [] []
      [.uri "http://e.o/s", .uri "http://e.o/t"]).2).isSome = true ∧
    (assocGet "t" (assignIds hash7 "d" cfgPlain gEmpty [] [] []
      [.uri "http://e.o/s", .uri "http://e.o/t"]).2).isSome = true :=
  claim_C10_edge_endpoints hash7 "d" cfgPlain gEmpty [] [] []
    [.uri "http://e.o/s", .uri "http://e.o/t"]
    [⟨.uri "http://e.o/s", "http://e.o/p", .uri "http://e.o/t"⟩] []
    ("s", "p", "t", false) (by decide)

/-! ## Claim C1: render determinism -/

theorem bnodeSwap_injective : Function.Injective bnodeSwap := by
  intro a b h
  unfold bnodeSwap at h
  by_cases ha : a = "a"
  · subst ha
    rw [if_pos rfl] at h
    by_cases hb : b = "a"
    · rw [hb]
    · by_cases hb' : b = "b"
      · rw [if_neg hb, if_pos hb'] at h
        exact absurd h (by decide)
      · rw [if_neg hb, if_neg hb'] at h
        exact absurd h.symm hb'
  · by_cases ha' : a = "b"
    · subst ha'
      rw [if_neg ha, if_pos rfl] at h
      by_cases hb : b = "a"
      · subst hb
        rw [if_pos rfl] at h
        exact absurd h (by decide)
      · by_cases hb' : b = "b"
        · rw [hb']
        · rw [if_neg hb, if_neg hb'] at h
          exact absurd h.symm hb
    · rw [if_neg ha, if_neg ha'] at h
      by_cases hb : b = "a"
      · subst hb
        rw [if_pos rfl] at h
        exact absurd h ha'
      · by_cases hb' : b = "b"
        · subst hb'
          rw [if_neg hb, if_pos rfl] at h
          exact absurd h ha
        · rw [if_neg hb, if_neg hb'] at h
          exact h

/-- Counterexample to C1 as stated: parsing the same one-triple document
twice yields graphs related by an injective blank-node renaming (rdflib
assigns fresh randomized blank-node identifiers per parse), and the two
renders differ byte-wise — the parser-chosen identifier leaks into the
`bn_`-prefixed node IDs of the generated source. -/
theorem claim_C1_counterexample :
    Function.Injective bnodeSwap ∧
    renameGraph bnodeSwap gBn = gBnRen ∧
    renderGraph cfgNoHier hash7 "d1" (renameGraph bnodeSwap gBn) ≠
      renderGraph cfgNoHier hash7 "d1" gBn :=
  ⟨bnodeSwap_injective, by decide, by decide⟩

theorem renameBNode_eq_self {rho : String → String} {n : RNode}
    (h : n.isBNode = false) : renameBNode rho n = n := by
  cases n <;> simp [renameBNode, RNode.isBNode] at h ⊢

theorem renameTriples_eq_self {rho : String → String} :
    ∀ (ts : List RTriple), (∀ t ∈ ts, t.s.isBNode = false ∧ t.o.isBNode = false) →
      ts.map (fun t => (⟨renameBNode rho t.s, t.p, renameBNode rho t.o⟩ : RTriple)) = ts := by
  intro ts
  induction ts with
  | nil => exact fun _ => rfl
  | cons t ts' ih =>
      intro h
      have ht := h t (by simp)
      simp only [List.map_cons]
      rw [ih (fun t' ht' => h t' (List.mem_cons_of_mem _ ht'))]
      obtain ⟨s, p, o⟩ := t
      rw [renameBNode_eq_self ht.1, renameBNode_eq_self ht.2]

/-- C1 as amended: two renders of the same input with the same
configuration (same process, hence the same string hash) are
byte-identical whenever the parser assigns identical blank-node
identifiers to both parses — in particular for every input whose parsed
graph contains no blank nodes, rendering is invariant under any
blank-node renaming, so the source strings and node-data maps coincide. -/
theorem claim_C1_determinism (cfg : Config) (hashFn : String → String → Nat)
    (did : String) (g : RGraph) (rho : String → String)
    (h : hasNoBNodes g = true) :
    renderGraph cfg hashFn did (renameGraph rho g) = renderGraph cfg hashFn did g := by
  have hid : renameGraph rho g = g := by
    obtain ⟨ts, nss⟩ := g
    simp only [renameGraph, RGraph.mk.injEq, and_true]
    simp only [hasNoBNodes, List.all_eq_true] at h
    refine renameTriples_eq_self ts ?_
    intro t ht
    have := h t ht
    simp only [Bool.and_eq_true, Bool.not_eq_true'] at this
    exact this
  rw [hid]

/-- Witness for C1 (amended) on a blank-node-free input. -/
theorem claim_C1_determinism_witness :
    renderGraph cfgNoHier hash7 "d2" (renameGraph bnodeSwap gPlainTriple) =
      renderGraph cfgNoHier hash7 "d2" gPlainTriple :=
  claim_C1_determinism cfgNoHier hash7 "d2" gPlainTriple bnodeSwap (by decide)

/-! ## Claim C4: hierarchy expansion terminates -/

theorem length_filter_excl [DecidableEq α] :
    ∀ (l : List α), l.Nodup → ∀ (p : α), p ∈ l → ∀ (vis : List α), p ∉ vis →
      (l.filter (fun x => decide (x ∉ vis ++ [p]))).length + 1
        = (l.filter (fun x => decide (x ∉ vis))).length := by
  intro l
  induction l with
  | nil =>
      intro _ p hp
      simp at hp
  | cons a l' ih =>
      intro hn p hp vis hv
      have hnotin : a ∉ l' := (List.nodup_cons.mp hn).1
      rcases List.mem_cons.mp hp with heq | hp'
      · subst heq
        have hfeq : l'.filter (fun x => decide (x ∉ vis ++ [p]))
            = l'.filter (fun x => decide (x ∉ vis)) := by
          apply List.filter_congr
          intro x hx
          have hxp : x ≠ p := fun h => hnotin (h ▸ hx)
          simp [List.mem_append, hxp]
        have c1 : decide (p ∉ vis ++ [p]) = false := by simp
        have c2 : decide (p ∉ vis) = true := by simpa using hv
        rw [List.filter_cons, List.filter_cons, c1, c2, hfeq]
        simp
      · have hap : a ≠ p := fun h => hnotin (h ▸ hp')
        have hcons : decide (a ∉ vis ++ [p]) = decide (a ∉ vis) := by
          simp [List.mem_append, hap]
        have hrec := ih (List.nodup_cons.mp hn).2 p hp' vis hv
        rw [List.filter_cons, List.filter_cons, hcons]
        cases hd : decide (a ∉ vis) with
        | false =>
            rw [if_neg (fun h => Bool.noConfusion h),
              if_neg (fun h => Bool.noConfusion h)]
            exact hrec
        | true =>
            rw [if_pos rfl, if_pos rfl]
            simp only [List.length_cons]
            omega

theorem hierCnt_le (fo : FOIndex) (vis : List String) :
    hierCnt fo vis ≤ (hierUniv fo).dedup.length :=
  List.length_filter_le _ _

theorem hierCnt_append (fo : FOIndex) :
    ∀ (df : List String) (vis : List String), df.Nodup →
      (∀ x ∈ df, x ∉ vis ∧ x ∈ hierUniv fo) →
      hierCnt fo (vis ++ df) + df.length = hierCnt fo vis := by
  intro df
  induction df with
  | nil =>
      intro vis _ _
      simp
  | cons x xs ih =>
      intro vis hnd hall
      have hx := hall x (by simp)
      have h1 : hierCnt fo (vis ++ [x]) + 1 = hierCnt fo vis := by
        unfold hierCnt
        exact length_filter_excl _ (List.nodup_dedup _) x
          (List.mem_dedup.mpr hx.2) vis hx.1
      have h2 : hierCnt fo ((vis ++ [x]) ++ xs) + xs.length = hierCnt fo (vis ++ [x]) := by
        refine ih (vis ++ [x]) (List.nodup_cons.mp hnd).2 ?_
        intro y hy
        refine ⟨?_, (hall y (List.mem_cons_of_mem _ hy)).2⟩
        intro hmem
        rcases List.mem_append.mp hmem with h | h
        · exact (hall y (List.mem_cons_of_mem _ hy)).1 h
        · have : y = x := by simpa using h
          exact (List.nodup_cons.mp hnd).1 (this ▸ hy)
      rw [show vis ++ x :: xs = (vis ++ [x]) ++ xs from by simp] at *
      simp only [List.length_cons]
      omega

theorem parentsOf_subset_univ (fo : FOIndex) (cur : String) :
    ∀ p ∈ fo.parentsOf cur, p ∈ hierUniv fo := by
  intro p hp
  unfold FOIndex.parentsOf at hp
  cases hf : fo.parents.find? (fun kv => kv.1 = cur) with
  | none =>
      rw [hf] at hp
      exact absurd hp (by simp)
  | some kv =>
      rw [hf] at hp
      have hp2 : p ∈ kv.2 := hp
      have hm := List.mem_of_find?_eq_some hf
      unfold hierUniv
      exact List.mem_flatten.mpr ⟨kv.2, List.mem_map.mpr ⟨kv, hm, rfl⟩, hp2⟩

theorem foldParents_go (root : String) (maxN maxE : Nat) (cur : String)
    (depth : Nat) (fo : FOIndex) :
    ∀ (ps : List String) (vis : List String) (pushes : List (String × Nat)) (st : HState)
      (vis' : List String) (pushes' : List (String × Nat)) (st' : HState),
      (∀ p ∈ ps, p ∈ hierUniv fo) →
      foldParents root maxN maxE cur depth ps vis pushes st = .go vis' pushes' st' →
      ∃ delta : List (String × Nat),
        pushes' = pushes ++ delta ∧ vis' = vis ++ delta.map Prod.fst ∧
        (delta.map Prod.fst).Nodup ∧
        (∀ x ∈ delta.map Prod.fst, x ∉ vis ∧ x ∈ hierUniv fo) := by
  intro ps
  induction ps with
  | nil =>
      intro vis pushes st vis' pushes' st' _ heq
      simp only [foldParents, StepRes.go.injEq] at heq
      obtain ⟨rfl, rfl, rfl⟩ := heq
      exact ⟨[], by simp⟩
  | cons p ps' ih =>
      intro vis pushes st vis' pushes' st' hsub heq
      simp only [foldParents] at heq
      split at heq
      · exact ih vis pushes st vis' pushes' st'
          (fun q hq => hsub q (List.mem_cons_of_mem _ hq)) heq
      · split at heq
        · exact absurd heq (by simp)
        · split at heq
          · rename_i hpush
            obtain ⟨d2, hpu, hvi, hnd, hall⟩ := ih _ _ _ vis' pushes' st'
              (fun q hq => hsub q (List.mem_cons_of_mem _ hq)) heq
            refine ⟨(p, depth + 1) :: d2, ?_, ?_, ?_, ?_⟩
            · rw [hpu]
              simp
            · rw [hvi]
              simp
            · simp only [List.map_cons, List.nodup_cons]
              refine ⟨?_, hnd⟩
              intro hmem
              have := (hall _ hmem).1
              simp at this
            · intro x hx
              simp only [List.map_cons, List.mem_cons] at hx
              rcases hx with rfl | hx
              · exact ⟨hpush.1, hsub _ (List.mem_cons_self _ _)⟩
              · have := hall x hx
                refine ⟨fun hmem => this.1 (List.mem_append_left _ hmem), this.2⟩
          · obtain ⟨d2, hpu, hvi, hnd, hall⟩ := ih _ _ _ vis' pushes' st'
              (fun q hq => hsub q (List.mem_cons_of_mem _ hq)) heq
            exact ⟨d2, hpu, hvi, hnd, hall⟩

theorem hierLoop_some (fo : FOIndex) (root : String) (maxDepth maxN maxE : Nat) :
    ∀ (fuel : Nat) (frontier : List (String × Nat)) (vis enq : List String) (st : HState),
      frontier.length + hierCnt fo vis < fuel →
      enq.Nodup → (∀ x ∈ enq, x ∈ vis) →
      ∃ st' enq' flag,
        hierLoop fo root maxDepth maxN maxE fuel frontier vis enq st
          = some (st', enq', flag) ∧ enq'.Nodup := by
  intro fuel
  induction fuel with
  | zero =>
      intro frontier vis enq st hmu
      omega
  | succ f ih =>
      intro frontier vis enq st hmu hnd hsub
      cases frontier with
      | nil => exact ⟨st, enq, false, rfl, hnd⟩
      | cons cd rest =>
          obtain ⟨cur, depth⟩ := cd
          by_cases hstop : cur = root ∨ maxDepth ≤ depth
          · have hred : hierLoop fo root maxDepth maxN maxE (f + 1)
                ((cur, depth) :: rest) vis enq st
                = hierLoop fo root maxDepth maxN maxE f rest vis enq st := by
              simp only [hierLoop, if_pos hstop]
            rw [hred]
            refine ih rest vis enq st ?_ hnd hsub
            simp only [List.length_cons] at hmu
            omega
          · cases hfold : foldParents root maxN maxE cur depth (fo.parentsOf cur) vis [] st with
            | stop st2 =>
                refine ⟨st2, enq, true, ?_, hnd⟩
                simp only [hierLoop, if_neg hstop, hfold]
            | go vis2 pushes st2 =>
                have hred : hierLoop fo root maxDepth maxN maxE (f + 1)
                    ((cur, depth) :: rest) vis enq st
                    = hierLoop fo root maxDepth maxN maxE f (rest ++ pushes) vis2
                        (enq ++ pushes.map Prod.fst) st2 := by
                  simp only [hierLoop, if_neg hstop, hfold]
                rw [hred]
                obtain ⟨d2, hpu, hvi, hndd, hall⟩ :=
                  foldParents_go root maxN maxE cur depth fo (fo.parentsOf cur)
                    vis [] st vis2 pushes st2 (parentsOf_subset_univ fo cur) hfold
                simp only [List.nil_append] at hpu
                rw [hpu, hvi]
                have hcnt := hierCnt_append fo (d2.map Prod.fst) vis hndd hall
                refine ih _ _ _ st2 ?_ ?_ ?_
                · have hlen : (d2.map Prod.fst).length = d2.length := List.length_map _ _
                  simp only [List.length_append, List.length_cons] at hmu ⊢
                  omega
                · rw [List.nodup_append]
                  refine ⟨hnd, hndd, ?_⟩
                  intro x hx hx2
                  exact (hall x hx2).1 (hsub x hx)
                · intro x hx
                  rcases List.mem_append.mp hx with h | h
                  · exact List.mem_append_left _ (hsub x h)
                  · exact List.mem_append_right _ h

theorem hierStarts_some (fo : FOIndex) (root : String) (maxDepth maxN maxE : Nat) :
    ∀ (starts : List String) (st : HState),
      ∃ out, hierStarts fo root maxDepth maxN maxE starts st = some out ∧
        ∀ l ∈ out.2, l.Nodup := by
  intro starts
  induction starts with
  | nil => exact fun st => ⟨(st, []), rfl, by simp⟩
  | cons start rest ih =>
      intro st
      obtain ⟨st', enq', flag, heq, hnd⟩ :=
        hierLoop_some fo root maxDepth maxN maxE (hierFuel fo)
          [(start, 0)] [start] [start] st
          (by
            have := hierCnt_le fo [start]
            simp only [List.length_cons, List.length_nil, hierFuel]
            omega)
          (by simp)
          (by simp)
      cases flag with
      | true =>
          refine ⟨(st', [enq']), ?_, ?_⟩
          · simp only [hierStarts, heq]
          · intro l hl
            simp only [List.mem_singleton] at hl
            exact hl ▸ hnd
      | false =>
          obtain ⟨out, heq2, hnd2⟩ := ih st'
          refine ⟨(out.1, enq' :: out.2), ?_, ?_⟩
          · simp only [hierStarts, heq, heq2]
            rfl
          · intro l hl
            rcases List.mem_cons.mp hl with rfl | hl
            · exact hnd
            · exact hnd2 l hl

/-- C4: for every configuration — every parent index, cyclic ones
included, and every finite `max_depth` — the hierarchy expansion
completes (the fuelled walk never exhausts its fuel), because a branch
stops at the configured root, beyond `max_depth`, or at an
already-visited node; and within one starting class the visited-set guard
ensures no node is ever enqueued twice (each per-start enqueue log is
duplicate-free). -/
theorem claim_C4_termination (cfg : Config) (classes : List String)
    (nodes : List RNode) (edges : List RTriple) :
    ∃ out, addFullHierarchy cfg classes nodes edges = some out ∧
      ∀ l ∈ out.2, l.Nodup := by
  unfold addFullHierarchy
  by_cases hu : cfg.useFullHierarchy = true
  · rw [if_pos hu]
    cases hfo : cfg.fullOntology with
    | none => exact ⟨(⟨classes, nodes, edges⟩, []), rfl, by simp⟩
    | some fo =>
        exact hierStarts_some fo cfg.hierarchyRoot cfg.hierarchyMaxDepth
          cfg.maxNodes cfg.maxEdges classes ⟨classes, nodes, edges⟩
  · rw [if_neg hu]
    exact ⟨(⟨classes, nodes, edges⟩, []), rfl, by simp⟩

/-- Witness for C4 on a deliberately cyclic two-class index. -/
theorem claim_C4_termination_witness :
    addFullHierarchy cfgCyclic ["http://e.o/x"] [] [] ≠ none := by
  obtain ⟨out, heq, _⟩ := claim_C4_termination cfgCyclic ["http://e.o/x"] [] []
  rw [heq]
  exact Option.some_ne_none _

/-! ## Claim C9: batch behaviour on a parse failure -/

/-- C9 fails on the code: the batch loop of `main` has no handler around
`render_graph`, so a `ParseError` in the first file aborts the whole
batch and the remaining files are never rendered; a batch without the
malformed file succeeds. -/
theorem claim_C9_batch_abort :
    mainBatch parseStub cfgPlain hash7 ["bad", "good"] = .error "ParseError: bad" ∧
    (mainBatch parseStub cfgPlain hash7 ["good"]).isOk = true := by
  refine ⟨rfl, by decide⟩

end TtlGv
